import Mathlib

/-!
# Shallow embedding of the Xeno-Language core

This file embeds the compiler, virtual machine and security layer of the
Xeno-Language repository (`xenoLang/core/xeno_vm.h`, `xenoLang/xeno_security.h`,
`xenoLang/xeno_compiler.h`) and proves/refutes the frozen specification claims
about them.

Modelling conventions:
* Arduino `String` values are `List Char` (`Str`).
* 32-bit machine integers are `Int`, with explicit two's-complement
  reinterpretation where the source casts between `uint32_t` and `int32_t`.
* IEEE-754 `float` payloads are `Rat`, together with an explicit
  encoder/decoder for the 32-bit bit pattern the source stores in `arg1`.
  The encoder is exact on the dyadic literals the claims exercise;
  transcendental float operations (sqrt, pow on floats), which no claim
  touches, are documented rational approximations.
* Serial console output of the VM is an explicit list of lines in the state;
  the compiler's diagnostic prints do not affect the compilation result and
  are noted in comments instead of being threaded through the state.
* `while` loops whose iteration counts the source bounds by an explicit
  counter are modelled with a fuel parameter at least as large as the
  source's bound.
-/

namespace Xeno

-- The Batteries rational primitives are sealed against unfolding; open
-- them up so that concrete VM and compiler runs reduce by decide.
attribute [local semireducible] Rat.mul Rat.add Rat.sub Rat.inv Rat.ofScientific

/-- Arduino `String`, modelled as a list of characters. -/
abbrev Str := List Char

/-- Shorthand turning a Lean string literal into the `Str` model. -/
def cs (s : String) : Str := s.data

/-- Character constants (written via code points to keep the file free of
delimiter characters inside literals). -/
def quoteCh : Char := Char.ofNat 34

def bslashCh : Char := Char.ofNat 92

def squoteCh : Char := Char.ofNat 39

def btickCh : Char := Char.ofNat 96

def qmCh : Char := Char.ofNat 63

def lbrkCh : Char := Char.ofNat 91

def rbrkCh : Char := Char.ofNat 93

def lbrcCh : Char := Char.ofNat 123

def rbrcCh : Char := Char.ofNat 125

def pipeCh : Char := Char.ofNat 124

def tildeCh : Char := Char.ofNat 126

def lparCh : Char := Char.ofNat 40

def rparCh : Char := Char.ofNat 41

def minusCh : Char := Char.ofNat 45

def plusCh : Char := Char.ofNat 43

def dotCh : Char := Char.ofNat 46

def commaCh : Char := Char.ofNat 44

def usCh : Char := Char.ofNat 95

def spCh : Char := Char.ofNat 32

def nlCh : Char := Char.ofNat 10

def dollarCh : Char := Char.ofNat 36

def eqCh : Char := Char.ofNat 61

def nulCh : Char := Char.ofNat 0

/-- `INT32_MIN`. -/
def intMin : Int := -2147483648

/-- `INT32_MAX`. -/
def intMax : Int := 2147483647

/-- Reinterpret a `uint32_t` bit pattern as an `int32_t` (two's complement). -/
def toInt32 (n : Nat) : Int :=
  if n < 2147483648 then (n : Int) else (n : Int) - 4294967296

/-- `static_cast<uint32_t>` of an `int32_t` value. -/
def toUInt32 (i : Int) : Nat := (i % 4294967296).toNat

/-- C++ signed integer division (truncation toward zero). -/
def cDiv (a b : Int) : Int := Int.tdiv a b

/-- C++ signed integer remainder (sign follows the dividend). -/
def cMod (a b : Int) : Int := Int.tmod a b

/-! ## IEEE-754 binary32 bit patterns

The source passes `float` immediates through `arg1` by `memcpy` of the bit
pattern.  We model the payload as `Rat` and convert explicitly.  The encoder
below is exact for the dyadic rationals produced by the claims (`1.0`,
`1.5`, ...); rounding is to nearest, ties to even, as IEEE prescribes. -/

/-- Fuel-bounded upward search for the binary exponent: largest `e` with
`2 ^ e ≤ q` (for `q ≥ 1`).  Fuel 300 covers the whole float range. -/
def exp2Up : Nat → Rat → Int → Int
  | 0, _, e => e
  | n + 1, q, e => if (2 : Rat) ^ (e + 1) ≤ q then exp2Up n q (e + 1) else e

/-- Fuel-bounded downward search for the binary exponent of `0 < q < 1`. -/
def exp2Down : Nat → Rat → Int → Int
  | 0, _, e => e
  | n + 1, q, e => if q < (2 : Rat) ^ e then exp2Down n q (e - 1) else e

/-- Binary exponent `e` with `2 ^ e ≤ q < 2 ^ (e + 1)` for positive `q`
within the float range. -/
def ratExp2 (q : Rat) : Int :=
  if 1 ≤ q then exp2Up 300 q 0 else exp2Down 300 q 0

/-- Round a rational to the nearest integer, ties to even. -/
def roundHalfEven (q : Rat) : Int :=
  let f := ⌊q⌋
  let r := q - (f : Rat)
  if r < 1 / 2 then f
  else if 1 / 2 < r then f + 1
  else if f % 2 = 0 then f else f + 1

/-- IEEE-754 binary32 bit pattern of a rational (round to nearest, ties to
even; subnormal underflow flushes to signed zero and overflow saturates to
infinity, neither of which any claim exercises). -/
def encodeFloat (q : Rat) : Nat :=
  if q = 0 then 0
  else
    let sign : Nat := if q < 0 then 2147483648 else 0
    let a := |q|
    let e0 := ratExp2 a
    let m0 := roundHalfEven (a * (2 : Rat) ^ ((23 : Int) - e0))
    let e := if m0 = 16777216 then e0 + 1 else e0
    let m := if m0 = 16777216 then (8388608 : Int) else m0
    if e < -126 then sign
    else if 127 < e then sign + 2139095040
    else sign + (e + 127).toNat * 8388608 + (m - 8388608).toNat

/-- Rational value of an IEEE-754 binary32 bit pattern (NaN and infinities,
which no claim produces, are modelled as 0). -/
def decodeFloat (bits : Nat) : Rat :=
  let sign := bits / 2147483648
  let e := (bits / 8388608) % 256
  let m := bits % 8388608
  let mag : Rat :=
    if e = 0 then (m : Rat) * (2 : Rat) ^ (-(149 : Int))
    else if e = 255 then 0
    else ((8388608 + m : Nat) : Rat) * (2 : Rat) ^ ((e : Int) - 150)
  if sign = 1 then -mag else mag

/-! ## Shared data model (`xeno_common.h`, with the extended opcode values
`INPUT = 27`, `MAX = 28`, `MIN = 29`, `SQRT = 30` of spec section 6 — the
core build's common header defining them is not part of the published
sources, while `xeno_security.h` and the compiler use exactly this
numbering). -/

/-- Bytecode instruction: `uint8_t opcode`, `uint32_t arg1`, `uint16_t arg2`. -/
structure XenoInstruction where
  opcode : Nat
  arg1 : Nat
  arg2 : Nat
  deriving Repr, DecidableEq

/-- Tagged runtime value: `TYPE_INT` (32-bit int), `TYPE_FLOAT` (binary32,
modelled as `Rat`), `TYPE_STRING` (16-bit index into the string table).
Constructors keep the names of the source's factory functions. -/
inductive XenoValue where
  | makeInt (v : Int)
  | makeFloat (v : Rat)
  | makeString (idx : Nat)
  deriving Repr, DecidableEq

/-- Numeric tag of a value: 0 = `TYPE_INT`, 1 = `TYPE_FLOAT`, 2 = `TYPE_STRING`. -/
def typeTag : XenoValue → Nat
  | .makeInt _ => 0
  | .makeFloat _ => 1
  | .makeString _ => 2

/-- `bothNumeric`: both operands are `TYPE_INT` or `TYPE_FLOAT`. -/
def bothNumeric (a b : XenoValue) : Bool :=
  (typeTag a = 0 ∨ typeTag a = 1) ∧ (typeTag b = 0 ∨ typeTag b = 1)

/-- `toFloat`: read a numeric value as float.  (`static_cast<float>` of an
`int32_t` rounds above 2^24; the claims only convert small integers, so the
conversion is modelled exactly.  A string value, which every caller excludes
via `bothNumeric`, reads as 0.) -/
def toFloat : XenoValue → Rat
  | .makeInt v => (v : Rat)
  | .makeFloat v => v
  | .makeString _ => 0

/-- Loop bookkeeping record of the compiler (`LoopInfo`). -/
structure LoopInfo where
  var_name : Str
  start_address : Nat
  condition_address : Nat
  end_jump_address : Nat
  deriving Repr, DecidableEq

/-! ## Generic string / map helpers mirroring Arduino `String` and `std::map` -/

/-- Lookup in an association list (`std::map::find`). -/
def mapFind {α : Type} : List (Str × α) → Str → Option α
  | [], _ => none
  | (k0, v) :: rest, k => if k0 = k then some v else mapFind rest k

/-- Insert-or-assign in an association list (`map[k] = v`). -/
def mapInsert {α : Type} : List (Str × α) → Str → α → List (Str × α)
  | [], k, v => [(k, v)]
  | (k0, v0) :: rest, k, v =>
    if k0 = k then (k0, v) :: rest else (k0, v0) :: mapInsert rest k v

/-- C `isspace` (space and the five control whitespace characters). -/
def isSpaceCh (c : Char) : Bool := c.toNat = 32 ∨ (9 ≤ c.toNat ∧ c.toNat ≤ 13)

/-- C `isdigit`. -/
def isDigitCh (c : Char) : Bool := 48 ≤ c.toNat ∧ c.toNat ≤ 57

/-- C `isalpha` (C locale). -/
def isAlphaCh (c : Char) : Bool :=
  (65 ≤ c.toNat ∧ c.toNat ≤ 90) ∨ (97 ≤ c.toNat ∧ c.toNat ≤ 122)

/-- C `isalnum` (C locale). -/
def isAlnumCh (c : Char) : Bool := isAlphaCh c || isDigitCh c

/-- Arduino `String::trim` (strip leading and trailing `isspace`). -/
def trimStr (s : Str) : Str :=
  ((s.dropWhile isSpaceCh).reverse.dropWhile isSpaceCh).reverse

/-- Arduino `String::toLowerCase`. -/
def toLowerStr (s : Str) : Str :=
  s.map fun c => if 65 ≤ c.toNat ∧ c.toNat ≤ 90 then Char.ofNat (c.toNat + 32) else c

/-- Helper for `indexOf`: scan for the first occurrence of `pat`. -/
def idxOfAux (pat : Str) : Str → Nat → Int
  | [], i => if pat = [] then (i : Int) else -1
  | c :: rest, i =>
    if List.isPrefixOf pat (c :: rest) then (i : Int) else idxOfAux pat rest (i + 1)

/-- Arduino `String::indexOf(String)`: first occurrence or -1. -/
def indexOfStr (s pat : Str) : Int := idxOfAux pat s 0

/-- Arduino `String::indexOf(char)`. -/
def indexOfCh (s : Str) (c : Char) : Int := indexOfStr s [c]

/-- Arduino `String::substring(from, to)`; the Arduino implementation swaps
the bounds when they are out of order. -/
def substr (s : Str) (a b : Nat) : Str :=
  let lo := if b < a then b else a
  let hi := if b < a then a else b
  (s.take hi).drop lo

/-- Accumulate the decimal value of a digit prefix (stops at the first
non-digit, like `atol`). -/
def digitsVal : Str → Int → Int
  | [], acc => acc
  | c :: rest, acc =>
    if isDigitCh c then digitsVal rest (acc * 10 + ((c.toNat : Int) - 48)) else acc

/-- Arduino `String::toInt` (`atol`): optional leading whitespace, optional
sign, then a digit prefix; no parse yields 0.  (The `long` overflow of the
host, which the compiler's range checks make unreachable for the inputs the
claims use, is not modelled.) -/
def toIntStr (s : Str) : Int :=
  let t := s.dropWhile isSpaceCh
  match t with
  | [] => 0
  | c :: rest =>
    if c = minusCh then -digitsVal rest 0
    else if c = plusCh then digitsVal rest 0
    else digitsVal t 0

/-- Arduino `String::toFloat` (`strtod`) restricted to the plain
`[-]digits[.digits]` shapes the compiler pre-validates; exact as a rational. -/
def toFloatRat (s : Str) : Rat :=
  let t := s.dropWhile isSpaceCh
  let neg := t.headD nulCh = minusCh
  let u := if neg then t.drop 1 else t
  let ip := u.takeWhile isDigitCh
  let rest := u.drop ip.length
  let fp :=
    match rest with
    | d :: more => if d = dotCh then more.takeWhile isDigitCh else []
    | [] => []
  let mag : Rat := ((digitsVal ip 0 : Int) : Rat) +
    ((digitsVal fp 0 : Int) : Rat) / ((10 : Rat) ^ fp.length)
  if neg then -mag else mag

/-- Render a natural number in decimal. -/
def natToStr (n : Nat) : Str := Nat.toDigits 10 n

/-- Arduino `String(int32_t)`: decimal with optional minus sign. -/
def intToStr (i : Int) : Str :=
  if i < 0 then minusCh :: natToStr (-i).toNat else natToStr i.toNat

/-- Arduino `String(float, d)`: fixed-point rendering with `d` fractional
digits.  Rounding is modelled as round-half-even; no claim observes a
rounding boundary. -/
def ratToStrFixed (q : Rat) (d : Nat) : Str :=
  let neg := q < 0
  let m := (roundHalfEven (|q| * (10 : Rat) ^ d)).toNat
  let ip := m / 10 ^ d
  let fp := m % 10 ^ d
  let fs := natToStr fp
  let digits := natToStr ip ++ (if d = 0 then [] else
    dotCh :: (List.replicate (d - fs.length) (Char.ofNat 48) ++ fs))
  if neg then minusCh :: digits else digits

/-! ## Security layer (`xeno_security.h`) -/

/-- Characters that `sanitizeString` escapes with a backslash. -/
def escapeSet : List Char := [bslashCh, quoteCh, squoteCh, btickCh]

/-- Per-character action of `XenoSecurity::sanitizeString`: printable ASCII
passes (escaped for the four dangerous characters), basic whitespace passes,
everything else becomes a question mark.  A signed `char` at or above 128
fails the printable test exactly like its code point does. -/
def sanChar (c : Char) : List Char :=
  if 32 ≤ c.toNat ∧ c.toNat ≤ 126 then
    if c ∈ escapeSet then [bslashCh, c] else [c]
  else if c.toNat = 32 ∨ c.toNat = 9 ∨ c.toNat = 10 ∨ c.toNat = 13 then [c]
  else [qmCh]

/-- The sanitize loop: after appending each translated character, a result
already at `MAX_STRING_LENGTH = 256` (the hardcoded literal of the source)
gets the literal dots appended and the walk stops. -/
def sanLoop : List Char → List Char → List Char
  | [], acc => acc
  | c :: rest, acc =>
    let acc1 := acc ++ sanChar c
    if 256 ≤ acc1.length then acc1 ++ cs "..." else sanLoop rest acc1

/-- `XenoSecurity::sanitizeString`. -/
def sanitizeString (input : Str) : Str := sanLoop input []

/-- `ALLOWED_PINS` of `xeno_security.h`; the Arduino constant `LED_BUILTIN`
(extern to the repository) is modelled as 13. -/
def ALLOWED_PINS : List Nat := [2, 3, 4, 5, 6, 7, 8, 9, 10, 11, 12, 13, 13]

/-- `XenoSecurity::isPinAllowed` (the parameter is a `uint8_t`, so callers
passing `arg1` truncate it modulo 256). -/
def isPinAllowed (pin : Nat) : Bool := ALLOWED_PINS.contains pin

/-- Opcodes whose `arg1` must index into the string table
(`PRINT, STORE, LOAD, PUSH_STRING, INPUT`). -/
def stringArgOps : List Nat := [1, 14, 15, 26, 27]

/-- Per-instruction checks of `XenoSecurity::verifyBytecode`: opcode range
(at most 30, or 255), jump targets inside the program, string indices inside
the table, pins allowed, delays at most 60000 ms. -/
def instrOk (len : Nat) (ss : List Str) (i : XenoInstruction) : Bool :=
  (decide (i.opcode ≤ 30) || decide (i.opcode = 255)) &&
  (if i.opcode = 11 ∨ i.opcode = 12 then decide (i.arg1 < len) else true) &&
  (if i.opcode ∈ stringArgOps then decide (i.arg1 < ss.length) else true) &&
  (if i.opcode = 2 ∨ i.opcode = 3 then isPinAllowed (i.arg1 % 256) else true) &&
  (if i.opcode = 4 then decide (i.arg1 ≤ 60000) else true)

/-- `XenoSecurity::verifyBytecode`: size limits, per-instruction checks, and
a `HALT` requirement for programs longer than 10 instructions. -/
def verifyBytecode (bc : List XenoInstruction) (ss : List Str) : Bool :=
  decide (bc.length ≤ 10000) && decide (ss.length ≤ 1000) &&
  bc.all (instrOk bc.length ss) &&
  (bc.any (fun i => i.opcode = 255) || decide (bc.length ≤ 10))

/-! ## Virtual machine state (`xenoLang/core/xeno_vm.h`) -/

/-- The VM state.  The stack (a 256-slot array with stack pointer in the
source) is the list of defined slots with the top at the head, so the stack
pointer is its length.  `output` collects the lines printed to the serial
console; `input_stream` models pending serial input for `INPUT`. -/
structure VMState where
  program : List XenoInstruction
  string_table : List Str
  string_lookup : List (Str × Nat)
  program_counter : Nat
  stack : List XenoValue
  -- `variables` in the source (the word is reserved in Lean)
  vars : List (Str × XenoValue)
  running : Bool
  instruction_count : Nat
  max_instructions : Nat
  iteration_count : Nat
  output : List Str
  input_stream : List Str
  deriving Repr, DecidableEq

/-- `MAX_ITERATIONS`. -/
def MAX_ITERATIONS : Nat := 100000

/-- `XenoVM::resetState` (the program, string table and console are not
touched; the 256-slot stack array is cleared, which the list model expresses
as the empty stack). -/
def resetState (s : VMState) : VMState :=
  { s with program_counter := 0, stack := [], running := false,
           instruction_count := 0, iteration_count := 0, max_instructions := 10000,
           vars := [], string_lookup := [] }

/-- `XenoVM::convertToString` (ints in decimal, floats with three decimals,
strings from the table; out-of-range indexing, undefined in C++, reads the
empty string). -/
def convertToString (s : VMState) : XenoValue → Str
  | .makeInt v => intToStr v
  | .makeFloat v => ratToStrFixed v 3
  | .makeString idx => s.string_table.getD idx []

/-- Append one line to the console. -/
def emitLine (s : VMState) (line : Str) : VMState :=
  { s with output := s.output ++ [line] }

/-- `XenoVM::Push`: bounds check against `MAX_STACK_SIZE = 256`. -/
def pushVal (s : VMState) (v : XenoValue) : VMState × Bool :=
  if 256 ≤ s.stack.length then
    ({ emitLine s (cs "CRITICAL ERROR: Stack overflow - terminating execution") with
        running := false }, false)
  else ({ s with stack := v :: s.stack }, true)

/-- `XenoVM::Pop`. -/
def popVal (s : VMState) : VMState × Option XenoValue :=
  match s.stack with
  | [] =>
    ({ emitLine s (cs "CRITICAL ERROR: Stack underflow - terminating execution") with
        running := false }, none)
  | v :: rest => ({ s with stack := rest }, some v)

/-- `XenoVM::PopTwo` (yields `(a, b)` with `b` the former top). -/
def popTwo (s : VMState) : VMState × Option (XenoValue × XenoValue) :=
  match s.stack with
  | b :: a :: rest => ({ s with stack := rest }, some (a, b))
  | _ =>
    ({ emitLine s
        (cs "CRITICAL ERROR: Stack underflow in binary operation - terminating execution") with
        running := false }, none)

/-- `XenoVM::Peek`. -/
def peekVal (s : VMState) : VMState × Option XenoValue :=
  match s.stack with
  | [] =>
    ({ emitLine s (cs "CRITICAL ERROR: Stack underflow in peek - terminating execution") with
        running := false }, none)
  | v :: _ => (s, some v)

/-- `XenoVM::Add` overflow test (the caller prints on failure). -/
def chkAdd (a b : Int) : Option Int :=
  if (0 < b ∧ intMax - b < a) ∨ (b < 0 ∧ a < intMin - b) then none else some (a + b)

/-- `XenoVM::Sub` overflow test. -/
def chkSub (a b : Int) : Option Int :=
  if (0 < b ∧ a < intMin + b) ∨ (b < 0 ∧ intMax + b < a) then none else some (a - b)

/-- `XenoVM::Mul` overflow test (fails silently in the source). -/
def chkMul (a b : Int) : Option Int :=
  if a = 0 ∨ b = 0 then some 0
  else if 0 < a then
    if 0 < b then (if cDiv intMax b < a then none else some (a * b))
    else (if b < cDiv intMin a then none else some (a * b))
  else
    if 0 < b then (if a < cDiv intMin b then none else some (a * b))
    else (if a < cDiv intMax b then none else some (a * b))

/-- The repeated-multiplication loop of `XenoVM::Pow`. -/
def chkPowLoop : Nat → Int → Int → Option Int
  | 0, acc, _ => some acc
  | n + 1, acc, base =>
    match chkMul acc base with
    | some r => chkPowLoop n r base
    | none => none

/-- `XenoVM::Mod` (zero divisor rejected by the caller path; `INT_MIN % -1`
yields 0). -/
def chkMod (a b : Int) : Option Int :=
  if b = 0 then none
  else if a = intMin ∧ b = -1 then some 0
  else some (cMod a b)

/-- Rational stand-in for float `sqrt` (floor of the integer square root of
`num * den`, over `den`): a documented approximation, exercised by no claim. -/
def ratSqrt (q : Rat) : Rat :=
  ((Nat.sqrt (q.num.toNat * q.den) : Int) : Rat) / ((q.den : Int) : Rat)

/-- Rational stand-in for float `pow` (exact for natural exponents, the
reciprocal for negative integer ones, and 0 otherwise): a documented
approximation, exercised by no claim. -/
def ratPow (a b : Rat) : Rat :=
  if b.den = 1 then (if 0 ≤ b.num then a ^ b.num.toNat else (a ^ (-b.num).toNat)⁻¹) else 0

/-- `XenoVM::performAddition`: string concatenation (via `addString`) when
either side is a string, else checked numeric addition. -/
def performAddition (s : VMState) (a b : XenoValue)
    (addStr : VMState → Str → VMState × Nat) : VMState × XenoValue :=
  if typeTag a = 2 ∨ typeTag b = 2 then
    let sa := convertToString s a
    let sb := convertToString s b
    let (s1, idx) := addStr s (sa ++ sb)
    (s1, .makeString idx)
  else if typeTag a = 1 ∨ typeTag b = 1 then
    (s, .makeFloat (toFloat a + toFloat b))
  else
    match a, b with
    | .makeInt x, .makeInt y =>
      match chkAdd x y with
      | some r => (s, .makeInt r)
      | none => (emitLine s (cs "ERROR: Integer overflow in addition"), .makeInt 0)
    | _, _ => (s, .makeInt 0)

/-- `XenoVM::performSubtraction`. -/
def performSubtraction (s : VMState) (a b : XenoValue) : VMState × XenoValue :=
  if bothNumeric a b then
    if typeTag a = 1 ∨ typeTag b = 1 then (s, .makeFloat (toFloat a - toFloat b))
    else
      match a, b with
      | .makeInt x, .makeInt y =>
        match chkSub x y with
        | some r => (s, .makeInt r)
        | none => (emitLine s (cs "ERROR: Integer overflow in subtraction"), .makeInt 0)
      | _, _ => (s, .makeInt 0)
  else (s, .makeInt 0)

/-- `XenoVM::performMultiplication` (overflow yields 0 with no message). -/
def performMultiplication (s : VMState) (a b : XenoValue) : VMState × XenoValue :=
  if bothNumeric a b then
    if typeTag a = 1 ∨ typeTag b = 1 then (s, .makeFloat (toFloat a * toFloat b))
    else
      match a, b with
      | .makeInt x, .makeInt y =>
        match chkMul x y with
        | some r => (s, .makeInt r)
        | none => (s, .makeInt 0)
      | _, _ => (s, .makeInt 0)
  else (s, .makeInt 0)

/-- `XenoVM::performDivision`: float division (0 divisor reported, yields
0.0); integer division with the zero-divisor and `INT_MIN / -1` soft errors
yielding 0. -/
def performDivision (s : VMState) (a b : XenoValue) : VMState × XenoValue :=
  if bothNumeric a b then
    if typeTag a = 1 ∨ typeTag b = 1 then
      if toFloat b ≠ 0 then (s, .makeFloat (toFloat a / toFloat b))
      else (emitLine s (cs "ERROR: Division by zero"), .makeFloat 0)
    else
      match a, b with
      | .makeInt x, .makeInt y =>
        if y ≠ 0 then
          if x = intMin ∧ y = -1 then
            (emitLine s (cs "ERROR: Integer overflow in division"), .makeInt 0)
          else (s, .makeInt (cDiv x y))
        else (emitLine s (cs "ERROR: Division by zero"), .makeInt 0)
      | _, _ => (s, .makeInt 0)
  else (s, .makeInt 0)

/-- `XenoVM::performModulo`. -/
def performModulo (s : VMState) (a b : XenoValue) : VMState × XenoValue :=
  match a, b with
  | .makeInt x, .makeInt y =>
    if y = 0 then (emitLine s (cs "ERROR: Modulo by zero"), .makeInt 0)
    else
      match chkMod x y with
      | some r => (s, .makeInt r)
      | none => (s, .makeInt 0)
  | _, _ => (emitLine s (cs "ERROR: Modulo requires integer operands"), .makeInt 0)

/-- `XenoVM::performPower` (a negative integer exponent fails silently;
overflow in the multiplication loop is reported). -/
def performPower (s : VMState) (a b : XenoValue) : VMState × XenoValue :=
  if bothNumeric a b then
    if typeTag a = 1 ∨ typeTag b = 1 then (s, .makeFloat (ratPow (toFloat a) (toFloat b)))
    else
      match a, b with
      | .makeInt x, .makeInt y =>
        if y < 0 then (s, .makeInt 0)
        else if y = 0 then (s, .makeInt 1)
        else if x = 0 then (s, .makeInt 0)
        else
          match chkPowLoop y.toNat 1 x with
          | some r => (s, .makeInt r)
          | none => (emitLine s (cs "ERROR: Integer overflow in power operation"), .makeInt 0)
      | _, _ => (s, .makeInt 0)
  else (s, .makeInt 0)

/-- `XenoVM::performAbs`. -/
def performAbs (s : VMState) (a : XenoValue) : VMState × XenoValue :=
  match a with
  | .makeInt x =>
    if x = intMin then
      (emitLine s (cs "ERROR: Integer overflow in absolute value"), .makeInt intMax)
    else (s, .makeInt |x|)
  | .makeFloat q => (s, .makeFloat |q|)
  | .makeString _ => (s, .makeInt 0)

/-- `XenoVM::Sqrt`. -/
def performSqrt (s : VMState) (a : XenoValue) : VMState × XenoValue :=
  match a with
  | .makeInt x =>
    if x < 0 then (emitLine s (cs "ERROR: Square root of negative number"), .makeInt 0)
    else (s, .makeFloat (ratSqrt ((x : Rat))))
  | .makeFloat q =>
    if q < 0 then (emitLine s (cs "ERROR: Square root of negative number"), .makeFloat 0)
    else (s, .makeFloat (ratSqrt q))
  | .makeString _ => (s, .makeInt 0)

/-- `XenoVM::Max`. -/
def performMax (a b : XenoValue) : XenoValue :=
  if bothNumeric a b then
    if typeTag a = 1 ∨ typeTag b = 1 then .makeFloat (max (toFloat a) (toFloat b))
    else
      match a, b with
      | .makeInt x, .makeInt y => .makeInt (max x y)
      | _, _ => .makeInt 0
  else .makeInt 0

/-- `XenoVM::Min`. -/
def performMin (a b : XenoValue) : XenoValue :=
  if bothNumeric a b then
    if typeTag a = 1 ∨ typeTag b = 1 then .makeFloat (min (toFloat a) (toFloat b))
    else
      match a, b with
      | .makeInt x, .makeInt y => .makeInt (min x y)
      | _, _ => .makeInt 0
  else .makeInt 0

/-- Lexicographic byte comparison of Arduino strings. -/
def strLt : Str → Str → Bool
  | [], [] => false
  | [], _ :: _ => true
  | _ :: _, [] => false
  | a :: as, b :: bs =>
    if a.toNat < b.toNat then true
    else if b.toNat < a.toNat then false
    else strLt as bs

/-- `XenoVM::performComparison` (op is one of `OP_EQ .. OP_GTE`, 19–24):
equal types compare directly, mixed numerics as floats, anything else is
false. -/
def performComparison (s : VMState) (a b : XenoValue) (op : Nat) : Bool :=
  if typeTag a ≠ typeTag b then
    if bothNumeric a b then
      let x := toFloat a
      let y := toFloat b
      if op = 19 then decide (x = y)
      else if op = 20 then decide (x ≠ y)
      else if op = 21 then decide (x < y)
      else if op = 22 then decide (y < x)
      else if op = 23 then decide (x ≤ y)
      else if op = 24 then decide (y ≤ x)
      else false
    else false
  else
    match a, b with
    | .makeInt x, .makeInt y =>
      if op = 19 then decide (x = y)
      else if op = 20 then decide (x ≠ y)
      else if op = 21 then decide (x < y)
      else if op = 22 then decide (y < x)
      else if op = 23 then decide (x ≤ y)
      else if op = 24 then decide (y ≤ x)
      else false
    | .makeFloat x, .makeFloat y =>
      if op = 19 then decide (x = y)
      else if op = 20 then decide (x ≠ y)
      else if op = 21 then decide (x < y)
      else if op = 22 then decide (y < x)
      else if op = 23 then decide (x ≤ y)
      else if op = 24 then decide (y ≤ x)
      else false
    | .makeString i, .makeString j =>
      let x := s.string_table.getD i []
      let y := s.string_table.getD j []
      if op = 19 then decide (x = y)
      else if op = 20 then decide (x ≠ y)
      else if op = 21 then strLt x y
      else if op = 22 then strLt y x
      else if op = 23 then (strLt x y || decide (x = y))
      else if op = 24 then (strLt y x || decide (x = y))
      else false
    | _, _ => false

/-- `XenoVM::addString`: sanitize, look up (hash map, then a linear scan of
the table), append if absent, capped at 65535 entries. -/
def addStringVM (s : VMState) (str : Str) : VMState × Nat :=
  let safe := sanitizeString str
  match mapFind s.string_lookup safe with
  | some i => (s, i)
  | none =>
    match s.string_table.findIdx? (fun t => t = safe) with
    | some i => ({ s with string_lookup := mapInsert s.string_lookup safe i }, i)
    | none =>
      if 65535 ≤ s.string_table.length then
        (emitLine s (cs "ERROR: String table overflow"), 0)
      else
        ({ s with string_table := s.string_table ++ [safe],
                  string_lookup := mapInsert s.string_lookup safe s.string_table.length },
         s.string_table.length)

/-! ## Instruction handlers (`xenoLang/core/xeno_vm.h`) -/

/-- `XenoVM::handlePRINT`. -/
def handlePRINT (i : XenoInstruction) (s : VMState) : VMState :=
  if i.arg1 < s.string_table.length then emitLine s (s.string_table.getD i.arg1 [])
  else emitLine s (cs "ERROR: Invalid string index")

/-- `XenoVM::handleLED_ON` (the GPIO write itself is a host side effect; the
serial trace line is modelled). -/
def handleLED_ON (i : XenoInstruction) (s : VMState) : VMState :=
  if isPinAllowed (i.arg1 % 256) = false then
    emitLine s (cs "ERROR: Pin not allowed: " ++ natToStr i.arg1)
  else emitLine s (cs "LED ON pin " ++ natToStr i.arg1)

/-- `XenoVM::handleLED_OFF`. -/
def handleLED_OFF (i : XenoInstruction) (s : VMState) : VMState :=
  if isPinAllowed (i.arg1 % 256) = false then
    emitLine s (cs "ERROR: Pin not allowed: " ++ natToStr i.arg1)
  else emitLine s (cs "LED OFF pin " ++ natToStr i.arg1)

/-- `XenoVM::handlePUSH` (the `uint32_t` immediate is reinterpreted as
`int32_t` by `makeInt`). -/
def handlePUSH (i : XenoInstruction) (s : VMState) : VMState :=
  (pushVal s (.makeInt (toInt32 i.arg1))).1

/-- `XenoVM::handlePUSH_FLOAT` (bit pattern decoded from `arg1`). -/
def handlePUSH_FLOAT (i : XenoInstruction) (s : VMState) : VMState :=
  (pushVal s (.makeFloat (decodeFloat i.arg1))).1

/-- `XenoVM::handlePUSH_STRING` (`makeString` takes a `uint16_t`). -/
def handlePUSH_STRING (i : XenoInstruction) (s : VMState) : VMState :=
  (pushVal s (.makeString (i.arg1 % 65536))).1

/-- `XenoVM::handlePOP`. -/
def handlePOP (s : VMState) : VMState := (popVal s).1

/-- `XenoVM::handleADD`. -/
def handleADD (s : VMState) : VMState :=
  match popTwo s with
  | (s1, none) => s1
  | (s1, some (a, b)) =>
    let (s2, v) := performAddition s1 a b addStringVM
    (pushVal s2 v).1

/-- `XenoVM::handleSUB`. -/
def handleSUB (s : VMState) : VMState :=
  match popTwo s with
  | (s1, none) => s1
  | (s1, some (a, b)) =>
    let (s2, v) := performSubtraction s1 a b
    (pushVal s2 v).1

/-- `XenoVM::handleMUL`. -/
def handleMUL (s : VMState) : VMState :=
  match popTwo s with
  | (s1, none) => s1
  | (s1, some (a, b)) =>
    let (s2, v) := performMultiplication s1 a b
    (pushVal s2 v).1

/-- `XenoVM::handleDIV`. -/
def handleDIV (s : VMState) : VMState :=
  match popTwo s with
  | (s1, none) => s1
  | (s1, some (a, b)) =>
    let (s2, v) := performDivision s1 a b
    (pushVal s2 v).1

/-- `XenoVM::handleMOD`. -/
def handleMOD (s : VMState) : VMState :=
  match popTwo s with
  | (s1, none) => s1
  | (s1, some (a, b)) =>
    let (s2, v) := performModulo s1 a b
    (pushVal s2 v).1

/-- `XenoVM::handlePOW`. -/
def handlePOW (s : VMState) : VMState :=
  match popTwo s with
  | (s1, none) => s1
  | (s1, some (a, b)) =>
    let (s2, v) := performPower s1 a b
    (pushVal s2 v).1

/-- `XenoVM::handleABS` (peeks and overwrites the top slot in place). -/
def handleABS (s : VMState) : VMState :=
  match peekVal s with
  | (s1, none) => s1
  | (s1, some a) =>
    let (s2, v) := performAbs s1 a
    { s2 with stack := v :: s2.stack.tail }

/-- `XenoVM::handleSQRT` (peeks and overwrites the top slot in place). -/
def handleSQRT (s : VMState) : VMState :=
  match peekVal s with
  | (s1, none) => s1
  | (s1, some a) =>
    let (s2, v) := performSqrt s1 a
    { s2 with stack := v :: s2.stack.tail }

/-- `XenoVM::handleMAX`. -/
def handleMAX (s : VMState) : VMState :=
  match popTwo s with
  | (s1, none) => s1
  | (s1, some (a, b)) => (pushVal s1 (performMax a b)).1

/-- `XenoVM::handleMIN`. -/
def handleMIN (s : VMState) : VMState :=
  match popTwo s with
  | (s1, none) => s1
  | (s1, some (a, b)) => (pushVal s1 (performMin a b)).1

/-- Common body of `handleEQ` .. `handleGTE`: comparisons push integer 0 on
true and 1 on false. -/
def handleCmp (op : Nat) (s : VMState) : VMState :=
  match popTwo s with
  | (s1, none) => s1
  | (s1, some (a, b)) =>
    (pushVal s1 (.makeInt (if performComparison s1 a b op then 0 else 1))).1

/-- `XenoVM::handlePRINT_NUM` (peeks, does not pop). -/
def handlePRINT_NUM (s : VMState) : VMState :=
  match peekVal s with
  | (s1, none) => s1
  | (s1, some v) =>
    match v with
    | .makeInt x => emitLine s1 (intToStr x)
    | .makeFloat q => emitLine s1 (ratToStrFixed q 2)
    | .makeString idx => emitLine s1 (s1.string_table.getD idx [])

/-- `XenoVM::handleSTORE` (an out-of-range name index is fatal). -/
def handleSTORE (i : XenoInstruction) (s : VMState) : VMState :=
  if s.string_table.length ≤ i.arg1 then
    { emitLine s (cs "ERROR: Invalid variable name index in STORE") with running := false }
  else
    match popVal s with
    | (s1, none) => s1
    | (s1, some v) =>
      { s1 with vars := mapInsert s1.vars (s1.string_table.getD i.arg1 []) v }

/-- `XenoVM::handleLOAD` (an out-of-range name index is fatal; an unknown
variable is a soft error pushing 0). -/
def handleLOAD (i : XenoInstruction) (s : VMState) : VMState :=
  if s.string_table.length ≤ i.arg1 then
    { emitLine s (cs "ERROR: Invalid variable name index in LOAD") with running := false }
  else
    let name := s.string_table.getD i.arg1 []
    match mapFind s.vars name with
    | some v => (pushVal s v).1
    | none =>
      (pushVal (emitLine s (cs "ERROR: Variable not found: " ++ name)) (.makeInt 0)).1

/-- `XenoVM::handleJUMP`: a target outside the program is fatal. -/
def handleJUMP (i : XenoInstruction) (s : VMState) : VMState :=
  if i.arg1 < s.program.length then { s with program_counter := i.arg1 }
  else { emitLine s (cs "ERROR: Jump to invalid address") with running := false }

/-- The condition switch of `handleJUMP_IF`: a non-zero integer, a non-zero
float, or a non-empty string counts as a branch-taking value. -/
def condTruthy (tbl : List Str) : XenoValue → Bool
  | .makeInt x => decide (x ≠ 0)
  | .makeFloat q => decide (q ≠ 0)
  | .makeString idx => decide ((tbl.getD idx []).isEmpty = false)

/-- `XenoVM::handleJUMP_IF`: pops one value; branches when the value is a
non-zero integer, a non-zero float, or a non-empty string — and only when
the target is inside the program (otherwise execution falls through). -/
def handleJUMP_IF (i : XenoInstruction) (s : VMState) : VMState :=
  match popVal s with
  | (s1, none) => s1
  | (s1, some v) =>
    let condition : Bool := condTruthy s1.string_table v
    if condition ∧ i.arg1 < s1.program.length then { s1 with program_counter := i.arg1 }
    else s1

/-- `isInteger` of the VM (input parsing; unlike the compiler's, no length
or range caps). -/
def isIntegerVM (s : Str) : Bool :=
  if s.isEmpty then false
  else
    let body := if s.headD nulCh = minusCh then s.drop 1 else s
    body.all isDigitCh

/-- Scanner for `isFloat`: digits with at most one dot; returns whether a
dot was seen, or `none` on an invalid character or second dot. -/
def floatScan : Str → Bool → Option Bool
  | [], hd => some hd
  | c :: rest, hd =>
    if c = dotCh then (if hd then none else floatScan rest true)
    else if isDigitCh c then floatScan rest hd
    else none

/-- `isFloat` of the VM. -/
def isFloatVM (s : Str) : Bool :=
  if s.isEmpty then false
  else
    let body := if s.headD nulCh = minusCh then s.drop 1 else s
    match floatScan body false with
    | some hd => hd
    | none => false

/-- `XenoVM::handleINPUT`.  The serial prompt and the 30-second timed read
are modelled by consuming one line from `input_stream`; an absent or empty
line is the timeout, which stores integer 0. -/
def handleINPUT (i : XenoInstruction) (s : VMState) : VMState :=
  if s.string_table.length ≤ i.arg1 then
    { emitLine s (cs "ERROR: Invalid variable name index in INPUT") with running := false }
  else
    let var_name := s.string_table.getD i.arg1 []
    match s.input_stream with
    | [] =>
      { emitLine s (cs "TIMEOUT - using default value 0") with
          vars := mapInsert s.vars var_name (.makeInt 0) }
    | line :: rest =>
      let t := trimStr line
      if t.isEmpty then
        { emitLine s (cs "TIMEOUT - using default value 0") with
            vars := mapInsert s.vars var_name (.makeInt 0), input_stream := rest }
      else
        let sv : VMState × XenoValue :=
          if isIntegerVM t then (s, .makeInt (toIntStr t))
          else if isFloatVM t then (s, .makeFloat (toFloatRat t))
          else
            let (s1, idx) := addStringVM s t
            (s1, .makeString idx)
        { emitLine sv.1 (cs "-> " ++ t) with
            vars := mapInsert sv.1.vars var_name sv.2, input_stream := rest }

/-- `XenoVM::handleHALT`. -/
def handleHALT (s : VMState) : VMState := { s with running := false }

/-- The opcodes with an entry in the 256-slot dispatch table
(`initializeDispatchTable` maps exactly 0–30 and 255). -/
def hasHandler (op : Nat) : Bool := decide (op ≤ 30) || decide (op = 255)

/-- Dispatch to the handler of an instruction (the `nullptr` entries are
rejected by `step` before this is reached). -/
def execInstr (i : XenoInstruction) (s : VMState) : VMState :=
  match i.opcode with
  | 0 => s
  | 1 => handlePRINT i s
  | 2 => handleLED_ON i s
  | 3 => handleLED_OFF i s
  | 4 => s
  | 5 => handlePUSH i s
  | 6 => handlePOP s
  | 7 => handleADD s
  | 8 => handleSUB s
  | 9 => handleMUL s
  | 10 => handleDIV s
  | 11 => handleJUMP i s
  | 12 => handleJUMP_IF i s
  | 13 => handlePRINT_NUM s
  | 14 => handleSTORE i s
  | 15 => handleLOAD i s
  | 16 => handleMOD s
  | 17 => handleABS s
  | 18 => handlePOW s
  | 19 => handleCmp 19 s
  | 20 => handleCmp 20 s
  | 21 => handleCmp 21 s
  | 22 => handleCmp 22 s
  | 23 => handleCmp 23 s
  | 24 => handleCmp 24 s
  | 25 => handlePUSH_FLOAT i s
  | 26 => handlePUSH_STRING i s
  | 27 => handleINPUT i s
  | 28 => handleMAX s
  | 29 => handleMIN s
  | 30 => handleSQRT s
  | 255 => handleHALT s
  | _ => s

/-- `XenoVM::step`: guard on `running` and the program counter, bump and
check the iteration counter, fetch and dispatch, then bump and check the
instruction counter.  Returns the successor state and the value `step`
returns to the caller. -/
def step (s : VMState) : VMState × Bool :=
  if s.running = false ∨ s.program.length ≤ s.program_counter then (s, false)
  else
    let s1 : VMState := { s with iteration_count := s.iteration_count + 1 }
    if MAX_ITERATIONS < s1.iteration_count then
      ({ emitLine s1 (cs "ERROR: Iteration limit exceeded - possible infinite loop") with
          running := false }, false)
    else
      match s1.program.get? s1.program_counter with
      | none => (s1, false)
      | some instr =>
        let s2 : VMState := { s1 with program_counter := s1.program_counter + 1 }
        if hasHandler instr.opcode then
          let s3 := execInstr instr s2
          let s4 : VMState := { s3 with instruction_count := s3.instruction_count + 1 }
          if s4.max_instructions < s4.instruction_count then
            ({ emitLine s4 (cs "ERROR: Instruction limit exceeded - possible infinite loop") with
                running := false }, false)
          else (s4, s4.running)
        else
          ({ emitLine s2 (cs "ERROR: Unknown instruction " ++ natToStr instr.opcode) with
              running := false }, false)

/-- The `while (step())` loop of `XenoVM::run`, with explicit fuel.  The
fuel passed by `runBody` exceeds the iteration cap, so it never runs out
before the loop exits (`c5` proves this). -/
def runLoopFuel : Nat → VMState → VMState
  | 0, s => s
  | fuel + 1, s =>
    match step s with
    | (s1, true) => runLoopFuel fuel s1
    | (s1, false) => s1

/-- `XenoVM::run` up to the final banner: start banner, then the loop. -/
def runBody (s : VMState) : VMState :=
  runLoopFuel (MAX_ITERATIONS + 1 - s.iteration_count) (emitLine s (cs "Starting Xeno VM..."))

/-- `XenoVM::run`. -/
def runVM (s : VMState) : VMState := emitLine (runBody s) (cs "Xeno VM finished")

/-- `XenoVM::loadProgram`: reset, sanitize the incoming strings, verify, and
only then install program and table and set `running`. -/
def loadProgram (s : VMState) (bytecode : List XenoInstruction) (strings : List Str) :
    VMState :=
  let s0 := resetState s
  let sanitized := strings.map sanitizeString
  if verifyBytecode bytecode sanitized = false then
    { emitLine s0 (cs "SECURITY: Bytecode verification failed - refusing to load") with
        running := false }
  else
    { emitLine s0 (cs "Program loaded and verified successfully") with
        program := bytecode, string_table := sanitized,
        string_lookup := (List.range sanitized.length).foldl
          (fun m i => mapInsert m (sanitized.getD i []) i) s0.string_lookup,
        running := true }

/-! ## Compiler (`xenoLang/xeno_compiler.h`)

Limits used by the compiler come from `xeno_security.h`:
`MAX_STRING_LENGTH = 256`, `MAX_VARIABLE_NAME_LENGTH = 32`,
`MAX_EXPRESSION_DEPTH = 32`, `MAX_LOOP_DEPTH = 16`, `MAX_IF_DEPTH = 16`.
The compiler's `Serial` diagnostics do not influence the produced bytecode
and are recorded as comments where they occur. -/

/-- Compiler state: bytecode, interned string table, the compile-time
variable type map, and the `if`/loop patch stacks (the vector tops are the
list heads). -/
structure CompState where
  bytecode : List XenoInstruction
  string_table : List Str
  variable_map : List (Str × XenoValue)
  if_stack : List Nat
  loop_stack : List LoopInfo
  deriving Repr, DecidableEq

/-- The empty compiler state. -/
def emptyComp : CompState := ⟨[], [], [], [], []⟩

/-- `XenoCompiler::validateString` (only the length check affects results;
the failure print is a diagnostic). -/
def validateStringC (s : Str) : Bool := decide (s.length ≤ 256)

/-- `XenoCompiler::isValidVariable`. -/
def isValidVariable (s : Str) : Bool :=
  if s.isEmpty ∨ 32 < s.length then false
  else
    (isAlphaCh (s.headD nulCh) || decide (s.headD nulCh = usCh)) &&
    (s.drop 1).all (fun c => isAlnumCh c || decide (c = usCh))

/-- `XenoCompiler::validateVariableName`. -/
def validateVariableName (name : Str) : Bool :=
  if 32 < name.length then false else isValidVariable name

/-- Index of the last occurrence of `s` (the source scans the table in
reverse and stops at the first hit). -/
def lastIdxOf : List Str → Str → Option Nat
  | [], _ => none
  | x :: xs, s =>
    match lastIdxOf xs s with
    | some i => some (i + 1)
    | none => if x = s then some 0 else none

/-- The table action of `XenoCompiler::addString`: validate, reverse-scan
for an existing entry, append if absent, capped at 65535 entries. -/
def addStringT (tbl : List Str) (s : Str) : List Str × Nat :=
  if validateStringC s = false then (tbl, 0)
  else
    match lastIdxOf tbl s with
    | some i => (tbl, i)
    | none =>
      if 65535 ≤ tbl.length then (tbl, 0)
      else (tbl ++ [s], tbl.length)

/-- `XenoCompiler::addString` (touches only the string table). -/
def addStringC (st : CompState) (s : Str) : CompState × Nat :=
  ({ st with string_table := (addStringT st.string_table s).1 },
   (addStringT st.string_table s).2)

/-- `XenoCompiler::getVariableIndex`. -/
def getVariableIndex (st : CompState) (name : Str) : CompState × Nat :=
  if validateVariableName name then addStringC st name else (st, 0)

/-- `XenoCompiler::isInteger`: bounded length, optional sign, digits, and a
32-bit range check on the parsed value.  (A bare minus sign vacuously passes
the digit loop, exactly as in the source.) -/
def isIntegerC (s : Str) : Bool :=
  if s.isEmpty ∨ 16 < s.length then false
  else
    let body := if s.headD nulCh = minusCh then s.drop 1 else s
    body.all isDigitCh &&
      (let v := toIntStr s
       decide (-2147483648 ≤ v ∧ v ≤ 2147483647))

/-- `XenoCompiler::isFloat`: bounded length, optional sign, digits with
exactly one dot, and more than one character overall. -/
def isFloatC (s : Str) : Bool :=
  if s.isEmpty ∨ 32 < s.length then false
  else
    let body := if s.headD nulCh = minusCh then s.drop 1 else s
    match floatScan body false with
    | some hd => hd && decide (1 < s.length)
    | none => false

/-- `XenoCompiler::isQuotedString`. -/
def isQuotedString (s : Str) : Bool :=
  decide (2 ≤ s.length) && decide (s.headD nulCh = quoteCh) &&
    decide (s.getLast? = some quoteCh)

/-- `XenoCompiler::isComparisonOperator`. -/
def isComparisonOperator (s : Str) : Bool :=
  s = cs "==" ∨ s = cs "!=" ∨ s = cs "<" ∨ s = cs ">" ∨ s = cs "<=" ∨ s = cs ">="

/-- `XenoCompiler::getPrecedence`. -/
def getPrecedence (op : Str) : Nat :=
  if op = cs "^" then 4
  else if op = cs "*" ∨ op = cs "/" ∨ op = cs "%" then 3
  else if op = cs "+" ∨ op = cs "-" then 2
  else if isComparisonOperator op then 1
  else 0

/-- `XenoCompiler::isRightAssociative`. -/
def isRightAssociative (op : Str) : Bool := op = cs "^"

/-- `XenoCompiler::cleanLine`: strip a trailing comment and trim. -/
def cleanLine (line : Str) : Str :=
  let ci := indexOfStr line (cs "//")
  trimStr (if 0 ≤ ci then line.take ci.toNat else line)

/-- The scan of `findMatchingParenthesis` (depth starts at 1 just past the
opening parenthesis). -/
def findMatchAux : Str → Nat → Nat → Int
  | [], _, _ => -1
  | c :: rest, i, count =>
    let count1 := if c = lparCh then count + 1 else if c = rparCh then count - 1 else count
    if count1 = 0 then (i : Int) else findMatchAux rest (i + 1) count1

/-- `XenoCompiler::findMatchingParenthesis`. -/
def findMatchingParenthesis (expr : Str) (start : Nat) : Int :=
  findMatchAux (expr.drop (start + 1)) (start + 1) 1

/-- One of the four rewrite loops of `processFunctions`: find `pat`, locate
the matching parenthesis, recursively process the call body via `recur`, and
replace the call with the bracketed token.  The shared `depth` counter is
threaded through; `MAX_EXPRESSION_DEPTH = 32` bounds the iterations, so the
fuel of 40 used by the caller never runs out. -/
def funcLoop (recur : Str → Str) (pat : Str) (lb rb : Char) :
    Nat → Str → Nat → Str × Nat
  | 0, result, depth => (result, depth)
  | fuel + 1, result, depth =>
    let pos := indexOfStr result pat
    if 0 ≤ pos ∧ depth < 32 then
      let p := pos.toNat
      let endPos := findMatchingParenthesis result (p + pat.length - 1)
      if (p : Int) < endPos then
        let inner := recur (substr result (p + pat.length) endPos.toNat)
        let result1 := result.take p ++ [lb] ++ inner ++ [rb] ++ result.drop (endPos.toNat + 1)
        funcLoop recur pat lb rb fuel result1 (depth + 1)
      else (result, depth)
    else (result, depth)

/-- `XenoCompiler::processFunctions`: rewrite `abs( )`, `max( )`, `min( )`,
`sqrt( )` calls into bracketed tokens, recursing into call bodies.  The
outer fuel bounds the recursion depth; every recursive call shrinks the
expression, so the fuel passed by `compileExpression` suffices. -/
def processFunctions : Nat → Str → Str
  | 0, expr => expr
  | fuel + 1, expr =>
    if 1024 < expr.length then expr
    else
      let r1 := funcLoop (processFunctions fuel) (cs "abs(") lbrkCh rbrkCh 40 expr 0
      let r2 := funcLoop (processFunctions fuel) (cs "max(") lbrcCh rbrcCh 40 r1.1 r1.2
      let r3 := funcLoop (processFunctions fuel) (cs "min(") pipeCh pipeCh 40 r2.1 r2.2
      let r4 := funcLoop (processFunctions fuel) (cs "sqrt(") tildeCh tildeCh 40 r3.1 r3.2
      r4.1

/-- The character walk of `tokenizeExpression`: `cur` is the token being
built, `inQ`/`inSp`/`spc` mirror the `inQuotes`/`inSpecial`/`specialChar`
flags, and `toks` accumulates finished tokens.  The fuel (initially the
input length) only makes the recursion structural: every call consumes at
least one input character, so it cannot run out before the input does. -/
def tokenizeAux : Nat → Str → Str → Bool → Bool → Char → List Str → List Str
  | _, [], cur, _, _, _, toks => if cur.isEmpty then toks else toks ++ [cur]
  | 0, _ :: _, cur, _, _, _, toks => if cur.isEmpty then toks else toks ++ [cur]
  | fuel + 1, c :: rest, cur, inQ, inSp, spc, toks =>
    if c = quoteCh ∧ inSp = false then
      (if inQ then
        let cur1 := cur ++ [c]
        let cur2 := if validateStringC cur1 then cur1 else [quoteCh, quoteCh]
        tokenizeAux fuel rest [] false inSp spc (toks ++ [cur2])
      else
        tokenizeAux fuel rest [quoteCh] true inSp spc
          (if cur.isEmpty then toks else toks ++ [cur]))
    else if inQ then tokenizeAux fuel rest (cur ++ [c]) inQ inSp spc toks
    else if (c = lbrkCh ∨ c = lbrcCh ∨ c = pipeCh ∨ c = tildeCh) ∧ inSp = false then
      tokenizeAux fuel rest [c] inQ true c (if cur.isEmpty then toks else toks ++ [cur])
    else if inSp ∧ c = spc then
      tokenizeAux fuel rest [] inQ false nulCh (toks ++ [cur ++ [c]])
    else if inSp then tokenizeAux fuel rest (cur ++ [c]) inQ inSp spc toks
    else if isSpaceCh c then
      tokenizeAux fuel rest [] inQ inSp spc (if cur.isEmpty then toks else toks ++ [cur])
    else
      match rest with
      | c2 :: rest2 =>
        let two := [c, c2]
        if two = cs "==" ∨ two = cs "!=" ∨ two = cs "<=" ∨ two = cs ">=" then
          tokenizeAux fuel rest2 [] inQ inSp spc
            ((if cur.isEmpty then toks else toks ++ [cur]) ++ [two])
        else if c = plusCh ∨ c = minusCh ∨ c = Char.ofNat 42 ∨ c = Char.ofNat 47 ∨
            c = Char.ofNat 37 ∨ c = Char.ofNat 94 ∨ c = Char.ofNat 60 ∨
            c = Char.ofNat 62 ∨ c = lparCh ∨ c = rparCh then
          tokenizeAux fuel rest [] inQ inSp spc
            ((if cur.isEmpty then toks else toks ++ [cur]) ++ [[c]])
        else tokenizeAux fuel rest (cur ++ [c]) inQ inSp spc toks
      | [] =>
        -- last character: the loop ends right after, flushing any token
        if c = plusCh ∨ c = minusCh ∨ c = Char.ofNat 42 ∨ c = Char.ofNat 47 ∨
            c = Char.ofNat 37 ∨ c = Char.ofNat 94 ∨ c = Char.ofNat 60 ∨
            c = Char.ofNat 62 ∨ c = lparCh ∨ c = rparCh then
          (if cur.isEmpty then toks else toks ++ [cur]) ++ [[c]]
        else toks ++ [cur ++ [c]]

/-- `XenoCompiler::tokenizeExpression`. -/
def tokenizeExpression (expr : Str) : List Str :=
  if 1024 < expr.length then [] else tokenizeAux expr.length expr [] false false nulCh []

/-- `startsWith a && endsWith b` on a token. -/
def startsEnds (t : Str) (a b : Char) : Bool :=
  decide (t.headD nulCh = a) && decide (t.getLast? = some b) && decide (t.isEmpty = false)

/-- Operand test of the shunting-yard loop. -/
def isOperandTok (t : Str) : Bool :=
  isIntegerC t || isFloatC t || isQuotedString t || isValidVariable t ||
  startsEnds t lbrkCh rbrkCh || startsEnds t lbrcCh rbrcCh ||
  startsEnds t pipeCh pipeCh || startsEnds t tildeCh tildeCh

/-- Pop operators of higher (or equal, for left-associative tokens)
precedence to the output. -/
def popWhile (precT : Nat) (rightAssoc : Bool) :
    List Str → List Str → List Str × List Str
  | out, [] => (out, [])
  | out, top :: ops =>
    if top ≠ cs "(" ∧ (precT < getPrecedence top ∨
        (getPrecedence top = precT ∧ rightAssoc = false)) then
      popWhile precT rightAssoc (out ++ [top]) ops
    else (out, top :: ops)

/-- Pop up to and including the matching opening parenthesis. -/
def popTillParen : List Str → List Str → List Str × List Str
  | out, [] => (out, [])
  | out, top :: ops =>
    if top ≠ cs "(" then popTillParen (out ++ [top]) ops else (out, ops)

/-- One token of the shunting-yard conversion. -/
def rpnStep (acc : List Str × List Str) (token : Str) : List Str × List Str :=
  let (out, ops) := acc
  if isOperandTok token then (out ++ [token], ops)
  else if token = cs "(" then (out, token :: ops)
  else if token = cs ")" then popTillParen out ops
  else
    let (out1, ops1) := popWhile (getPrecedence token) (isRightAssociative token) out ops
    (out1, token :: ops1)

/-- `XenoCompiler::infixToPostfix` (shunting-yard; token lists above 100
entries are rejected with an empty result). -/
def toRPN (tokens : List Str) : List Str :=
  if 100 < tokens.length then []
  else
    let (out, ops) := tokens.foldl rpnStep ([], [])
    out ++ ops

/-- `XenoCompiler::emitInstruction` (programs are capped at 65535
instructions). -/
def emitInstruction (st : CompState) (i : XenoInstruction) : CompState :=
  if 65535 ≤ st.bytecode.length then st
  else { st with bytecode := st.bytecode ++ [i] }

/-- One token of `compilePostfix`; `recur` compiles the inner expressions of
bracketed call tokens. -/
def emitToken (recur : CompState → Str → CompState) (st : CompState) (token : Str) :
    CompState :=
  if isIntegerC token then emitInstruction st ⟨5, toUInt32 (toIntStr token), 0⟩
  else if isFloatC token then emitInstruction st ⟨25, encodeFloat (toFloatRat token), 0⟩
  else if isQuotedString token then
    let body := substr token 1 (token.length - 1)
    let body1 := if validateStringC body then body else []
    let (st1, idx) := addStringC st body1
    emitInstruction st1 ⟨26, idx, 0⟩
  else if isValidVariable token then
    let (st1, idx) := getVariableIndex st token
    emitInstruction st1 ⟨15, idx, 0⟩
  else if startsEnds token lbrkCh rbrkCh then
    emitInstruction (recur st (substr token 1 (token.length - 1))) ⟨17, 0, 0⟩
  else if startsEnds token lbrcCh rbrcCh then
    let inner := substr token 1 (token.length - 1)
    let comma := indexOfCh inner commaCh
    if 0 < comma then
      emitInstruction
        (recur (recur st (substr inner 0 comma.toNat)) (inner.drop (comma.toNat + 1)))
        ⟨28, 0, 0⟩
    else st
  else if startsEnds token pipeCh pipeCh then
    let inner := substr token 1 (token.length - 1)
    let comma := indexOfCh inner commaCh
    if 0 < comma then
      emitInstruction
        (recur (recur st (substr inner 0 comma.toNat)) (inner.drop (comma.toNat + 1)))
        ⟨29, 0, 0⟩
    else st
  else if startsEnds token tildeCh tildeCh then
    emitInstruction (recur st (substr token 1 (token.length - 1))) ⟨30, 0, 0⟩
  else if token = cs "+" then emitInstruction st ⟨7, 0, 0⟩
  else if token = cs "-" then emitInstruction st ⟨8, 0, 0⟩
  else if token = cs "*" then emitInstruction st ⟨9, 0, 0⟩
  else if token = cs "/" then emitInstruction st ⟨10, 0, 0⟩
  else if token = cs "%" then emitInstruction st ⟨16, 0, 0⟩
  else if token = cs "^" then emitInstruction st ⟨18, 0, 0⟩
  else if token = cs "==" then emitInstruction st ⟨19, 0, 0⟩
  else if token = cs "!=" then emitInstruction st ⟨20, 0, 0⟩
  else if token = cs "<" then emitInstruction st ⟨21, 0, 0⟩
  else if token = cs ">" then emitInstruction st ⟨22, 0, 0⟩
  else if token = cs "<=" then emitInstruction st ⟨23, 0, 0⟩
  else if token = cs ">=" then emitInstruction st ⟨24, 0, 0⟩
  else st

/-- `XenoCompiler::compileExpression` with recursion fuel for the calls on
bracketed token bodies; every nested body is strictly shorter than the
enclosing expression (the rewriting only removes characters), so the fuel
passed by the `compileExpression` wrapper cannot run out on expressions the
length guard admits. -/
def compileExprF : Nat → CompState → Str → CompState
  | 0, st, _ => st
  | fuel + 1, st, expr =>
    if expr.isEmpty ∨ 1024 < expr.length then st
    else
      let rpn := toRPN (tokenizeExpression (processFunctions 2000 expr))
      if 100 < rpn.length then st
      else rpn.foldl (emitToken (compileExprF fuel)) st

/-- `XenoCompiler::compileExpression`. -/
def compileExpression (st : CompState) (expr : Str) : CompState :=
  compileExprF 2000 st expr

/-- `XenoCompiler::extractVariableName`. -/
def extractVariableName (text : Str) : Str :=
  if text.headD nulCh = dollarCh then text.drop 1 else []

/-- `XenoCompiler::determineValueType` (0/1/2 = int/float/string). -/
def determineValueType (st : CompState) (value : Str) : Nat :=
  if isQuotedString value then 2
  else if isFloatC value then 1
  else if isIntegerC value then 0
  else if isValidVariable value then
    match mapFind st.variable_map value with
    | some v => typeTag v
    | none => 0
  else 0

/-- `XenoCompiler::createValueFromString`. -/
def createValueFromString (st : CompState) (s : Str) (ty : Nat) : CompState × XenoValue :=
  if ty = 0 then (st, .makeInt (toIntStr s))
  else if ty = 1 then (st, .makeFloat (toFloatRat s))
  else
    let (st1, idx) := addStringC st (substr s 1 (s.length - 1))
    (st1, .makeString (idx % 65536))

/-- Overwrite `arg1` of the instruction at `i` (jump patching). -/
def patchArg1 (l : List XenoInstruction) (i : Nat) (v : Nat) : List XenoInstruction :=
  match l.get? i with
  | some ins => l.set i ⟨ins.opcode, v, ins.arg2⟩
  | none => l

/-- The `print` branch of `compileLine`. -/
def compilePrint (st : CompState) (args : Str) : CompState :=
  let var_name := extractVariableName args
  if var_name.isEmpty = false then
    if isValidVariable var_name then
      let (st1, vi) := getVariableIndex st var_name
      emitInstruction (emitInstruction st1 ⟨15, vi, 0⟩) ⟨13, 0, 0⟩
    else st
  else
    let text :=
      if args.headD nulCh = quoteCh ∧ args.getLast? = some quoteCh then
        substr args 1 (args.length - 1)
      else args
    let text1 := if validateStringC text then text else []
    let (st1, sid) := addStringC st text1
    emitInstruction st1 ⟨1, sid, 0⟩

/-- The `led` branch of `compileLine`. -/
def compileLed (st : CompState) (args : Str) : CompState :=
  let si := indexOfCh args spCh
  if 0 < si then
    let pin := toIntStr (substr args 0 si.toNat)
    let state_str := toLowerStr (trimStr (args.drop (si.toNat + 1)))
    if pin < 0 ∨ 255 < pin then st
    else if state_str = cs "on" ∨ state_str = cs "1" then
      emitInstruction st ⟨2, pin.toNat, 0⟩
    else if state_str = cs "off" ∨ state_str = cs "0" then
      emitInstruction st ⟨3, pin.toNat, 0⟩
    else st
  else st

/-- The `delay` branch of `compileLine` (out-of-range values are clamped to
[0, 60000]). -/
def compileDelay (st : CompState) (args : Str) : CompState :=
  let d := toIntStr args
  let d1 := if d < 0 ∨ 60000 < d then min (max d 0) 60000 else d
  emitInstruction st ⟨4, d1.toNat, 0⟩

/-- The `push` branch of `compileLine`. -/
def compilePush (st : CompState) (args : Str) : CompState :=
  if isValidVariable args then
    let (st1, vi) := getVariableIndex st args
    emitInstruction st1 ⟨15, vi, 0⟩
  else if isFloatC args then emitInstruction st ⟨25, encodeFloat (toFloatRat args), 0⟩
  else if isQuotedString args then
    let body := substr args 1 (args.length - 1)
    let body1 := if validateStringC body then body else []
    let (st1, sid) := addStringC st body1
    emitInstruction st1 ⟨26, sid, 0⟩
  else emitInstruction st ⟨5, toUInt32 (toIntStr args), 0⟩

/-- The `input` branch of `compileLine`. -/
def compileInput (st : CompState) (args : Str) : CompState :=
  if validateVariableName args = false then st
  else
    let (st1, vi) := getVariableIndex st args
    emitInstruction st1 ⟨27, vi, 0⟩

/-- The `set` branch of `compileLine`: a literal right-hand side records the
variable's compile-time type in `variable_map`, then the expression is
compiled and stored. -/
def compileSet (st : CompState) (args : Str) : CompState :=
  let sp1 := indexOfCh args spCh
  if 0 < sp1 then
    let var_name := substr args 0 sp1.toNat
    let expression := args.drop (sp1.toNat + 1)
    if validateVariableName var_name = false then st
    else
      let vt := determineValueType st expression
      let st1 :=
        if isIntegerC expression || isFloatC expression || isQuotedString expression then
          let (stv, v) := createValueFromString st expression vt
          { stv with variable_map := mapInsert stv.variable_map var_name v }
        else st
      let st2 := compileExpression st1 expression
      let (st3, vi) := getVariableIndex st2 var_name
      emitInstruction st3 ⟨14, vi, 0⟩
  else st

/-- The `if` branch of `compileLine`: compile the condition, emit a
`JUMP_IF` with a placeholder target, and push its address. -/
def compileIf (st : CompState) (args : Str) : CompState :=
  if 16 ≤ st.if_stack.length then st
  else
    let thenPos := indexOfStr args (cs " then")
    if 0 < thenPos then
      let st1 := compileExpression st (substr args 0 thenPos.toNat)
      let jump_addr := st1.bytecode.length
      let st2 := emitInstruction st1 ⟨12, 0, 0⟩
      { st2 with if_stack := jump_addr :: st2.if_stack }
    else st

/-- The `else` branch of `compileLine`: emit a `JUMP` placeholder, patch the
pending `JUMP_IF` to just past it, and replace the stack top. -/
def compileElse (st : CompState) : CompState :=
  match st.if_stack with
  | [] => st
  | if_jump_addr :: restStack =>
    let else_jump_addr := st.bytecode.length
    let st1 := emitInstruction st ⟨11, 0, 0⟩
    let st2 :=
      if if_jump_addr < st1.bytecode.length then
        { st1 with bytecode := patchArg1 st1.bytecode if_jump_addr st1.bytecode.length }
      else st1
    { st2 with if_stack := else_jump_addr :: restStack }

/-- The `endif` branch of `compileLine`: patch the pending jump to the
current address and pop. -/
def compileEndif (st : CompState) : CompState :=
  match st.if_stack with
  | [] => st
  | jump_addr :: restStack =>
    let st1 :=
      if jump_addr < st.bytecode.length then
        { st with bytecode := patchArg1 st.bytecode jump_addr st.bytecode.length }
      else st
    { st1 with if_stack := restStack }

/-- The `for` branch of `compileLine`: compile the start expression, store
it, then the loop head (`LOAD var`, end expression, `LTE`, `JUMP_IF`), and
push the loop record. -/
def compileFor (st : CompState) (args : Str) : CompState :=
  if 16 ≤ st.loop_stack.length then st
  else
    let equalsPos := indexOfCh args eqCh
    let toPos := indexOfStr args (cs " to ")
    if 0 < equalsPos ∧ equalsPos < toPos then
      let var_name := trimStr (substr args 0 equalsPos.toNat)
      if validateVariableName var_name = false then st
      else
        let start_expr := trimStr (substr args (equalsPos.toNat + 1) toPos.toNat)
        let end_expr := trimStr (args.drop (toPos.toNat + 4))
        let st1 := compileExpression st start_expr
        let (st2, vi) := getVariableIndex st1 var_name
        let st3 := emitInstruction st2 ⟨14, vi, 0⟩
        let loop_start := st3.bytecode.length
        let st4 := emitInstruction st3 ⟨15, vi, 0⟩
        let st5 := compileExpression st4 end_expr
        let st6 := emitInstruction st5 ⟨23, 0, 0⟩
        let condition_jump := st6.bytecode.length
        let st7 := emitInstruction st6 ⟨12, 0, 0⟩
        { st7 with loop_stack :=
            ⟨var_name, loop_start, condition_jump, st7.bytecode.length⟩ :: st7.loop_stack }
    else st

/-- The `endfor` branch of `compileLine`: emit the increment (`PUSH_FLOAT
1.0` when `variable_map` records a float for the loop variable, else
`PUSH 1`), the store, the back jump, and patch the loop's `JUMP_IF` to the
loop exit. -/
def compileEndfor (st : CompState) : CompState :=
  match st.loop_stack with
  | [] => st
  | li :: restLoops =>
    let st0 : CompState := { st with loop_stack := restLoops }
    let (st1, vi1) := getVariableIndex st0 li.var_name
    let st2 := emitInstruction st1 ⟨15, vi1, 0⟩
    let st3 :=
      match mapFind st2.variable_map li.var_name with
      | some v =>
        if typeTag v = 1 then emitInstruction st2 ⟨25, encodeFloat 1, 0⟩
        else emitInstruction st2 ⟨5, 1, 0⟩
      | none => emitInstruction st2 ⟨5, 1, 0⟩
    let st4 := emitInstruction st3 ⟨7, 0, 0⟩
    let (st5, vi2) := getVariableIndex st4 li.var_name
    let st6 := emitInstruction st5 ⟨14, vi2, 0⟩
    let st7 := emitInstruction st6 ⟨11, li.start_address, 0⟩
    if li.condition_address < st7.bytecode.length then
      { st7 with bytecode := patchArg1 st7.bytecode li.condition_address st7.bytecode.length }
    else st7

/-- `XenoCompiler::compileLine`: clean the line, split off the
case-insensitive command word, and dispatch.  (`lineNo` feeds only the
diagnostics.) -/
def compileLine (st : CompState) (line : Str) (_lineNo : Nat) : CompState :=
  let cleaned := cleanLine line
  if cleaned.isEmpty then st
  else if 512 < cleaned.length then st
  else
    let fsi := indexOfCh cleaned spCh
    let command := if 0 < fsi then substr cleaned 0 fsi.toNat else cleaned
    let args := if 0 < fsi then trimStr (cleaned.drop (fsi.toNat + 1)) else []
    let cmd := toLowerStr command
    if cmd = cs "print" then compilePrint st args
    else if cmd = cs "printnum" then emitInstruction st ⟨13, 0, 0⟩
    else if cmd = cs "led" then compileLed st args
    else if cmd = cs "delay" then compileDelay st args
    else if cmd = cs "push" then compilePush st args
    else if cmd = cs "pop" then emitInstruction st ⟨6, 0, 0⟩
    else if cmd = cs "add" then emitInstruction st ⟨7, 0, 0⟩
    else if cmd = cs "sub" then emitInstruction st ⟨8, 0, 0⟩
    else if cmd = cs "mul" then emitInstruction st ⟨9, 0, 0⟩
    else if cmd = cs "div" then emitInstruction st ⟨10, 0, 0⟩
    else if cmd = cs "mod" then emitInstruction st ⟨16, 0, 0⟩
    else if cmd = cs "abs" then emitInstruction st ⟨17, 0, 0⟩
    else if cmd = cs "pow" then emitInstruction st ⟨18, 0, 0⟩
    else if cmd = cs "max" then emitInstruction st ⟨28, 0, 0⟩
    else if cmd = cs "min" then emitInstruction st ⟨29, 0, 0⟩
    else if cmd = cs "sqrt" then emitInstruction st ⟨30, 0, 0⟩
    else if cmd = cs "input" then compileInput st args
    else if cmd = cs "set" then compileSet st args
    else if cmd = cs "if" then compileIf st args
    else if cmd = cs "else" then compileElse st
    else if cmd = cs "endif" then compileEndif st
    else if cmd = cs "for" then compileFor st args
    else if cmd = cs "endfor" then compileEndfor st
    else if cmd = cs "halt" then emitInstruction st ⟨255, 0, 0⟩
    else st

/-- Split the source at newline characters (the parts the `indexOf` loop of
`compile` walks, plus the trailing part). -/
def splitNl : Str → List Str
  | [] => [[]]
  | c :: rest =>
    if c = nlCh then [] :: splitNl rest
    else
      match splitNl rest with
      | part :: parts => (c :: part) :: parts
      | [] => [[c]]

/-- The per-line loop of `compile` (empty lines are skipped; line numbers
feed only the diagnostics). -/
def compileLinesFold : CompState → List Str → Nat → CompState
  | st, [], _ => st
  | st, p :: rest, ln =>
    compileLinesFold (if p.isEmpty then st else compileLine st p (ln + 1)) rest (ln + 1)

/-- `XenoCompiler::compile`: reset state, compile each line, and append a
trailing `HALT` unless the last instruction already is one. -/
def compile (src : Str) : CompState :=
  let st := compileLinesFold emptyComp (splitNl src) 0
  match st.bytecode.getLast? with
  | some ins =>
    if ins.opcode ≠ 255 then { st with bytecode := st.bytecode ++ [⟨255, 0, 0⟩] } else st
  | none => { st with bytecode := [⟨255, 0, 0⟩] }

/-! ## Specification-side definitions and concrete claim inputs

The two definitions below transcribe spec wording (for refinement
comparisons); the remaining definitions are the concrete programs and VM
configurations the claim theorems evaluate. -/

/-- The defined opcode set of spec section 6: the contiguous values
`NOP = 0` through `SQRT = 30`, plus `HALT = 255`.  (Spec-side definition for
the claim C4 comparison.) -/
def definedOpcodes : List Nat := List.range 31 ++ [255]

/-- The per-character sanitization table as the spec words it: printable
ASCII (32..126) passes, prefixed with a backslash for backslash, double
quote, single quote and backtick; space, tab, newline and carriage return
pass; every other byte becomes a question mark.  (Spec-side definition for
the claim C8 comparison.) -/
def specCharMap (c : Char) : List Char :=
  if 32 ≤ c.toNat ∧ c.toNat ≤ 126 then
    if c ∈ escapeSet then [bslashCh, c] else [c]
  else if c.toNat = 32 ∨ c.toNat = 9 ∨ c.toNat = 10 ∨ c.toNat = 13 then [c]
  else [qmCh]

/-- A freshly constructed VM (`XenoVM::XenoVM` runs `resetState` on empty
program and tables). -/
def initVM : VMState :=
  ⟨[], [], [], 0, [], [], false, 0, 10000, 0, [], []⟩

/-- Claim C1 counterexample state: about to execute `JUMP_IF 0` with
integer 0 (truthy per the spec's table) on top of the stack. -/
def c1cex : VMState :=
  ⟨[⟨12, 0, 0⟩], [], [], 0, [.makeInt 0], [], true, 0, 10000, 0, [], []⟩

/-- Claim C1 witness state: about to execute `JUMP_IF 0` with the non-zero
integer 5 on top of the stack. -/
def c1wit : VMState :=
  ⟨[⟨12, 0, 0⟩, ⟨0, 0, 0⟩], [], [], 0, [.makeInt 5], [], true, 0, 10000, 0, [], []⟩

/-- Claim C2 counterexample state: about to execute `JUMP_IF 9` — an
out-of-bounds target — with the non-zero integer 1 on top of the stack. -/
def c2cex : VMState :=
  ⟨[⟨12, 9, 0⟩, ⟨0, 0, 0⟩], [], [], 0, [.makeInt 1], [], true, 0, 10000, 0, [], []⟩

/-- Claim C2 witness state: about to execute `JUMP_IF 9` (out of bounds)
with integer 1 on the stack. -/
def c2wit : VMState :=
  ⟨[⟨12, 9, 0⟩, ⟨0, 0, 0⟩], [], [], 0, [.makeInt 1], [], true, 0, 10000, 0, [], []⟩

/-- Claim C3 failing source: the `if` body ends in `halt`, so `endif`
patches the pending `JUMP_IF` to one past the final instruction. -/
def c3src : Str := cs "if 1 then\nhalt\nendif"

/-- Claim C5 counterexample state: a loaded three-`NOP` program with
`max_instructions` set to 1 via `setMaxInstructions`. -/
def c5cex : VMState :=
  ⟨[⟨0, 0, 0⟩, ⟨0, 0, 0⟩, ⟨0, 0, 0⟩], [], [], 0, [], [], true, 0, 1, 0, [], []⟩

/-- Claim C5 witness state: the single-`HALT` program, freshly loaded. -/
def c5wit : VMState :=
  ⟨[⟨255, 0, 0⟩], [], [], 0, [], [], true, 0, 10000, 0, [], []⟩

/-- Claim C6 counterexample source: the `for` start expression is the float
literal `1.5`, but no `set` ever recorded a type for `x`. -/
def c6src : Str := cs "for x = 1.5 to 3\nendfor"

/-- Claim C6 witness compiler state: a pending loop over `x` whose
`variable_map` records a float (as a prior `set x 1.5` would), with two
placeholder instructions already emitted. -/
def c6wit : CompState :=
  ⟨[⟨25, 1069547520, 0⟩, ⟨12, 0, 0⟩], [cs "x"], [(cs "x", .makeFloat (3 / 2))], [],
   [⟨cs "x", 0, 1, 2⟩]⟩

/-- Claim C7 witness state: about to execute `DIV` with divisor 0 under
dividend 10. -/
def c7wit : VMState :=
  ⟨[⟨10, 0, 0⟩], [], [], 0, [.makeInt 0, .makeInt 10], [], true, 0, 10000, 0, [], []⟩

/-- Claim C8 counterexample input: 255 letters followed by a double quote,
whose escape lands the intermediate result at 257 characters before the
dots are appended. -/
def c8input : Str := List.replicate 255 (Char.ofNat 97) ++ [quoteCh]

/-- Claim C9 source program. -/
def c9src : Str := cs "set x 2+3*4\nprint $x"

/-- Claim C9 compiled program. -/
def c9prog : CompState := compile c9src

/-- Claim C10 witness: a bytecode whose `JUMP 5` target is out of bounds,
so verification fails. -/
def c10bad : List XenoInstruction := [⟨11, 5, 0⟩]

/-- Claim C10 witness: a VM with a previously installed program and string
table (as after a successful earlier load). -/
def c10prior : VMState :=
  ⟨[⟨1, 0, 0⟩, ⟨255, 0, 0⟩], [cs "hello"], [(cs "hello", 0)], 0, [], [], true, 0, 10000, 0,
   [], []⟩

/-- The three execution counters agree between two states (handlers never
touch them; only `step` and the lifecycle functions do). -/
def CountersEq (s t : VMState) : Prop :=
  t.iteration_count = s.iteration_count ∧ t.instruction_count = s.instruction_count ∧
  t.max_instructions = s.max_instructions

/-! ## Structural lemmas about the VM step function -/

theorem countersEq_refl (s : VMState) : CountersEq s s := ⟨rfl, rfl, rfl⟩

theorem countersEq_trans {s t u : VMState} (h1 : CountersEq s t) (h2 : CountersEq t u) :
    CountersEq s u :=
  ⟨h2.1.trans h1.1, h2.2.1.trans h1.2.1, h2.2.2.trans h1.2.2⟩

theorem emitLine_counters (s : VMState) (l : Str) : CountersEq s (emitLine s l) :=
  ⟨rfl, rfl, rfl⟩

theorem pushVal_counters (s : VMState) (v : XenoValue) : CountersEq s (pushVal s v).1 := by
  unfold pushVal
  split <;> exact ⟨rfl, rfl, rfl⟩

theorem popVal_counters (s : VMState) : CountersEq s (popVal s).1 := by
  unfold popVal
  split <;> exact ⟨rfl, rfl, rfl⟩

theorem popTwo_counters (s : VMState) : CountersEq s (popTwo s).1 := by
  unfold popTwo
  split <;> exact ⟨rfl, rfl, rfl⟩

theorem peekVal_counters (s : VMState) : CountersEq s (peekVal s).1 := by
  unfold peekVal
  split <;> exact ⟨rfl, rfl, rfl⟩

theorem addStringVM_counters (s : VMState) (str : Str) : CountersEq s (addStringVM s str).1 := by
  simp only [addStringVM]
  repeat' split
  all_goals exact ⟨rfl, rfl, rfl⟩

theorem performAddition_counters (s : VMState) (a b : XenoValue) :
    CountersEq s (performAddition s a b addStringVM).1 := by
  unfold performAddition
  split
  · dsimp only
    exact addStringVM_counters s _
  · repeat' split
    all_goals exact ⟨rfl, rfl, rfl⟩

theorem performSubtraction_counters (s : VMState) (a b : XenoValue) :
    CountersEq s (performSubtraction s a b).1 := by
  unfold performSubtraction
  repeat' split
  all_goals exact ⟨rfl, rfl, rfl⟩

theorem performMultiplication_counters (s : VMState) (a b : XenoValue) :
    CountersEq s (performMultiplication s a b).1 := by
  unfold performMultiplication
  repeat' split
  all_goals exact ⟨rfl, rfl, rfl⟩

theorem performDivision_counters (s : VMState) (a b : XenoValue) :
    CountersEq s (performDivision s a b).1 := by
  unfold performDivision
  repeat' split
  all_goals exact ⟨rfl, rfl, rfl⟩

theorem performModulo_counters (s : VMState) (a b : XenoValue) :
    CountersEq s (performModulo s a b).1 := by
  unfold performModulo
  repeat' split
  all_goals exact ⟨rfl, rfl, rfl⟩

theorem performPower_counters (s : VMState) (a b : XenoValue) :
    CountersEq s (performPower s a b).1 := by
  unfold performPower
  repeat' split
  all_goals exact ⟨rfl, rfl, rfl⟩

theorem performAbs_counters (s : VMState) (a : XenoValue) :
    CountersEq s (performAbs s a).1 := by
  unfold performAbs
  repeat' split
  all_goals exact ⟨rfl, rfl, rfl⟩

theorem performSqrt_counters (s : VMState) (a : XenoValue) :
    CountersEq s (performSqrt s a).1 := by
  unfold performSqrt
  repeat' split
  all_goals exact ⟨rfl, rfl, rfl⟩

theorem execInstr_counters (i : XenoInstruction) (s : VMState) :
    CountersEq s (execInstr i s) := by
  have hpair : ∀ (t : VMState) (p : VMState × Option (XenoValue × XenoValue)),
      popTwo t = p → CountersEq t p.1 := by
    intro t p hp
    have := popTwo_counters t
    rwa [hp] at this
  have hpop : ∀ (t : VMState) (p : VMState × Option XenoValue),
      popVal t = p → CountersEq t p.1 := by
    intro t p hp
    have := popVal_counters t
    rwa [hp] at this
  have hpush : ∀ (t : VMState) (v : XenoValue) (p : VMState × Bool),
      pushVal t v = p → CountersEq t p.1 := by
    intro t v p hp
    have := pushVal_counters t v
    rwa [hp] at this
  unfold execInstr
  split
  -- NOP
  · exact countersEq_refl s
  -- PRINT
  · unfold handlePRINT
    split <;> exact ⟨rfl, rfl, rfl⟩
  -- LED_ON
  · unfold handleLED_ON
    split <;> exact ⟨rfl, rfl, rfl⟩
  -- LED_OFF
  · unfold handleLED_OFF
    split <;> exact ⟨rfl, rfl, rfl⟩
  -- DELAY
  · exact countersEq_refl s
  -- PUSH
  · exact pushVal_counters s _
  -- POP
  · exact popVal_counters s
  -- ADD
  · unfold handleADD
    split
    · next s1 heq => exact hpair s _ heq
    · next s1 a b heq =>
      refine countersEq_trans (hpair s _ heq) ?_
      have h2 := performAddition_counters s1 a b
      split
      next s2 v heq2 =>
        rw [heq2] at h2
        exact countersEq_trans h2 (pushVal_counters s2 v)
  -- SUB
  · unfold handleSUB
    split
    · next s1 heq => exact hpair s _ heq
    · next s1 a b heq =>
      refine countersEq_trans (hpair s _ heq) ?_
      have h2 := performSubtraction_counters s1 a b
      split
      next s2 v heq2 =>
        rw [heq2] at h2
        exact countersEq_trans h2 (pushVal_counters s2 v)
  -- MUL
  · unfold handleMUL
    split
    · next s1 heq => exact hpair s _ heq
    · next s1 a b heq =>
      refine countersEq_trans (hpair s _ heq) ?_
      have h2 := performMultiplication_counters s1 a b
      split
      next s2 v heq2 =>
        rw [heq2] at h2
        exact countersEq_trans h2 (pushVal_counters s2 v)
  -- DIV
  · unfold handleDIV
    split
    · next s1 heq => exact hpair s _ heq
    · next s1 a b heq =>
      refine countersEq_trans (hpair s _ heq) ?_
      have h2 := performDivision_counters s1 a b
      split
      next s2 v heq2 =>
        rw [heq2] at h2
        exact countersEq_trans h2 (pushVal_counters s2 v)
  -- JUMP
  · unfold handleJUMP
    split <;> exact ⟨rfl, rfl, rfl⟩
  -- JUMP_IF
  · unfold handleJUMP_IF
    split
    · next s1 heq => exact hpop s _ heq
    · next s1 v heq =>
      refine countersEq_trans (hpop s _ heq) ?_
      dsimp only
      split <;> exact ⟨rfl, rfl, rfl⟩
  -- PRINT_NUM
  · unfold handlePRINT_NUM
    split
    · next s1 heq =>
      have := peekVal_counters s
      rwa [heq] at this
    · next s1 v heq =>
      have h1 := peekVal_counters s
      rw [heq] at h1
      refine countersEq_trans h1 ?_
      split <;> exact ⟨rfl, rfl, rfl⟩
  -- STORE
  · unfold handleSTORE
    split
    · exact ⟨rfl, rfl, rfl⟩
    · split
      · next s1 heq => exact hpop s _ heq
      · next s1 v heq => exact countersEq_trans (hpop s _ heq) ⟨rfl, rfl, rfl⟩
  -- LOAD
  · unfold handleLOAD
    split
    · exact ⟨rfl, rfl, rfl⟩
    · dsimp only
      split
      · exact pushVal_counters s _
      · exact countersEq_trans (emitLine_counters s _) (pushVal_counters _ _)
  -- MOD
  · unfold handleMOD
    split
    · next s1 heq => exact hpair s _ heq
    · next s1 a b heq =>
      refine countersEq_trans (hpair s _ heq) ?_
      have h2 := performModulo_counters s1 a b
      split
      next s2 v heq2 =>
        rw [heq2] at h2
        exact countersEq_trans h2 (pushVal_counters s2 v)
  -- ABS
  · unfold handleABS
    split
    · next s1 heq =>
      have := peekVal_counters s
      rwa [heq] at this
    · next s1 v heq =>
      have h1 := peekVal_counters s
      rw [heq] at h1
      refine countersEq_trans h1 ?_
      have h2 := performAbs_counters s1 v
      split
      next s2 w heq2 =>
        rw [heq2] at h2
        exact countersEq_trans h2 ⟨rfl, rfl, rfl⟩
  -- POW
  · unfold handlePOW
    split
    · next s1 heq => exact hpair s _ heq
    · next s1 a b heq =>
      refine countersEq_trans (hpair s _ heq) ?_
      have h2 := performPower_counters s1 a b
      split
      next s2 v heq2 =>
        rw [heq2] at h2
        exact countersEq_trans h2 (pushVal_counters s2 v)
  -- EQ..GTE (six comparison opcodes share handleCmp)
  · unfold handleCmp
    split
    · next s1 heq => exact hpair s _ heq
    · next s1 a b heq => exact countersEq_trans (hpair s _ heq) (pushVal_counters s1 _)
  · unfold handleCmp
    split
    · next s1 heq => exact hpair s _ heq
    · next s1 a b heq => exact countersEq_trans (hpair s _ heq) (pushVal_counters s1 _)
  · unfold handleCmp
    split
    · next s1 heq => exact hpair s _ heq
    · next s1 a b heq => exact countersEq_trans (hpair s _ heq) (pushVal_counters s1 _)
  · unfold handleCmp
    split
    · next s1 heq => exact hpair s _ heq
    · next s1 a b heq => exact countersEq_trans (hpair s _ heq) (pushVal_counters s1 _)
  · unfold handleCmp
    split
    · next s1 heq => exact hpair s _ heq
    · next s1 a b heq => exact countersEq_trans (hpair s _ heq) (pushVal_counters s1 _)
  · unfold handleCmp
    split
    · next s1 heq => exact hpair s _ heq
    · next s1 a b heq => exact countersEq_trans (hpair s _ heq) (pushVal_counters s1 _)
  -- PUSH_FLOAT
  · exact pushVal_counters s _
  -- PUSH_STRING
  · exact pushVal_counters s _
  -- INPUT
  · unfold handleINPUT
    split
    · exact ⟨rfl, rfl, rfl⟩
    · try dsimp only
      split
      · exact ⟨rfl, rfl, rfl⟩
      · next line rest heq =>
        try dsimp only
        split
        · exact ⟨rfl, rfl, rfl⟩
        · split
          · exact ⟨rfl, rfl, rfl⟩
          · split
            · exact ⟨rfl, rfl, rfl⟩
            · rcases haeq : addStringVM s (trimStr line) with ⟨s1, idx⟩
              simp only [haeq]
              have := addStringVM_counters s (trimStr line)
              rw [haeq] at this
              exact countersEq_trans this ⟨rfl, rfl, rfl⟩
  -- MAX
  · unfold handleMAX
    split
    · next s1 heq => exact hpair s _ heq
    · next s1 a b heq => exact countersEq_trans (hpair s _ heq) (pushVal_counters s1 _)
  -- MIN
  · unfold handleMIN
    split
    · next s1 heq => exact hpair s _ heq
    · next s1 a b heq => exact countersEq_trans (hpair s _ heq) (pushVal_counters s1 _)
  -- SQRT
  · unfold handleSQRT
    split
    · next s1 heq =>
      have := peekVal_counters s
      rwa [heq] at this
    · next s1 v heq =>
      have h1 := peekVal_counters s
      rw [heq] at h1
      refine countersEq_trans h1 ?_
      have h2 := performSqrt_counters s1 v
      split
      next s2 w heq2 =>
        rw [heq2] at h2
        exact countersEq_trans h2 ⟨rfl, rfl, rfl⟩
  -- HALT
  · exact ⟨rfl, rfl, rfl⟩
  -- unmapped opcode (unreachable through step)
  · exact countersEq_refl s

/-- A `step` that returns `true` advanced both counters by one, kept the
instruction budget, and left the VM running; it can only happen strictly
below the iteration cap. -/
theorem step_true_facts (s t : VMState) (h : step s = (t, true)) :
    t.iteration_count = s.iteration_count + 1 ∧
    t.instruction_count = s.instruction_count + 1 ∧
    t.instruction_count ≤ t.max_instructions ∧
    t.max_instructions = s.max_instructions ∧
    t.running = true ∧ s.iteration_count < MAX_ITERATIONS := by
  unfold step at h
  dsimp only at h
  split at h
  · simp at h
  · rename_i hguard
    split at h
    · simp at h
    · rename_i hiter
      split at h
      · simp at h
      · rename_i instr heq
        split at h
        · rename_i hhandler
          split at h
          · simp at h
          · rename_i hlimit
            rw [Prod.mk.injEq] at h
            obtain ⟨ht, hr⟩ := h
            subst ht
            obtain ⟨hi, hc, hm⟩ := execInstr_counters instr
              { s with iteration_count := s.iteration_count + 1,
                       program_counter := s.program_counter + 1 }
            dsimp only at hi hc hm hlimit ⊢
            simp only [not_lt] at hiter hlimit
            exact ⟨by omega, by omega, by omega, by omega, hr, by omega⟩
        · simp at h

/-- Projection bounds on any `step` outcome. -/
theorem step_counter_bounds (s : VMState) :
    (step s).1.instruction_count ≤ s.instruction_count + 1 ∧
    (step s).1.max_instructions = s.max_instructions ∧
    s.iteration_count ≤ (step s).1.iteration_count ∧
    (step s).1.iteration_count ≤ s.iteration_count + 1 := by
  unfold step
  dsimp only [emitLine]
  split
  · exact ⟨Nat.le_succ _, rfl, Nat.le_refl _, Nat.le_succ _⟩
  · split
    · exact ⟨Nat.le_succ _, rfl, Nat.le_succ _, Nat.le_refl _⟩
    · split
      · exact ⟨Nat.le_succ _, rfl, Nat.le_succ _, Nat.le_refl _⟩
      · rename_i instr heq
        split
        · obtain ⟨hi, hc, hm⟩ := execInstr_counters instr
            { s with iteration_count := s.iteration_count + 1,
                     program_counter := s.program_counter + 1 }
          dsimp only [emitLine] at hi hc hm
          split
          · dsimp only [emitLine]
            exact ⟨by omega, by omega, by omega, by omega⟩
          · dsimp only [emitLine]
            exact ⟨by omega, by omega, by omega, by omega⟩
        · exact ⟨Nat.le_succ _, rfl, Nat.le_succ _, Nat.le_refl _⟩

/-- At or above the iteration cap, `step` refuses to run. -/
theorem step_iter_reject (s : VMState) (h : MAX_ITERATIONS ≤ s.iteration_count) :
    (step s).2 = false := by
  unfold step
  dsimp only [emitLine]
  split
  · rfl
  · split
    · rfl
    · rename_i hiter
      exact absurd (by omega : MAX_ITERATIONS < s.iteration_count + 1) hiter

/-- The invariant `instruction_count ≤ min iteration_count MAX_ITERATIONS`
is preserved by every `step`. -/
theorem step_instr_inv (s : VMState)
    (h : s.instruction_count ≤ min s.iteration_count MAX_ITERATIONS) :
    (step s).1.instruction_count ≤ min (step s).1.iteration_count MAX_ITERATIONS := by
  rw [Nat.le_min] at h
  rw [Nat.le_min]
  unfold step
  dsimp only [emitLine]
  split
  · exact h
  · split
    · dsimp only [emitLine]
      exact ⟨by omega, h.2⟩
    · split
      · dsimp only [emitLine]
        exact ⟨by omega, h.2⟩
      · rename_i instr heq
        split
        · obtain ⟨hi, hc, hm⟩ := execInstr_counters instr
            { s with iteration_count := s.iteration_count + 1,
                     program_counter := s.program_counter + 1 }
          dsimp only [emitLine] at hi hc hm
          split
          · dsimp only [emitLine]
            exact ⟨by omega, by omega⟩
          · dsimp only [emitLine]
            exact ⟨by omega, by omega⟩
        · dsimp only [emitLine]
          exact ⟨by omega, by omega⟩

/-- Once `step` has returned `false`, the successor state is a fixpoint:
stepping it again changes nothing and returns `false`. -/
theorem step_false_stable (s t : VMState) (h : step s = (t, false)) :
    step t = (t, false) := by
  have hstop : ∀ (u : VMState), u.running = false → step u = (u, false) := by
    intro u hu
    unfold step
    rw [if_pos (Or.inl hu)]
  unfold step at h
  dsimp only at h
  split at h
  · rename_i hg
    rw [Prod.mk.injEq] at h
    obtain ⟨ht, -⟩ := h
    subst ht
    unfold step
    rw [if_pos hg]
  · rename_i hg
    split at h
    · rw [Prod.mk.injEq] at h
      obtain ⟨ht, -⟩ := h
      subst ht
      exact hstop _ rfl
    · split at h
      · rename_i hnone
        exfalso
        rcases not_or.mp hg with ⟨-, hlen⟩
        exact hlen (List.get?_eq_none.mp hnone)
      · rename_i instr heq
        split at h
        · split at h
          · rw [Prod.mk.injEq] at h
            obtain ⟨ht, -⟩ := h
            subst ht
            exact hstop _ rfl
          · rw [Prod.mk.injEq] at h
            obtain ⟨ht, hr⟩ := h
            subst ht
            exact hstop _ (by simpa using hr.symm)
        · rw [Prod.mk.injEq] at h
          obtain ⟨ht, -⟩ := h
          subst ht
          exact hstop _ rfl

/-- Unfolding of the run loop by one iteration. -/
theorem runLoopFuel_succ (n : Nat) (s : VMState) :
    runLoopFuel (n + 1) s =
      (if (step s).2 = true then runLoopFuel n (step s).1 else (step s).1) := by
  show (match step s with | (s1, true) => runLoopFuel n s1 | (s1, false) => s1) = _
  rcases hs : step s with ⟨s1, c⟩
  cases c <;> simp

/-- Fuel irrelevance: once some fuel `k` reaches the loop's exit state (a
`step` fixpoint), any larger fuel computes the same state.  This is what
makes the large fuel constant of `runBody` harmless. -/
theorem runLoopFuel_fix (k : Nat) : ∀ (s : VMState),
    step (runLoopFuel k s) = (runLoopFuel k s, false) →
    ∀ n, k ≤ n → runLoopFuel n s = runLoopFuel k s := by
  induction k with
  | zero =>
    intro s h n _
    have h' : step s = (s, false) := h
    cases n with
    | zero => rfl
    | succ m =>
      rw [runLoopFuel_succ, h']
      simp only [Bool.false_eq_true, if_false]
      exact rfl
  | succ k ih =>
    intro s h n hkn
    obtain ⟨m, rfl⟩ : ∃ m, n = m + 1 := ⟨n - 1, by omega⟩
    rw [runLoopFuel_succ k s] at h ⊢
    rw [runLoopFuel_succ m s]
    rcases hs : step s with ⟨s1, c⟩
    rw [hs] at h
    cases c
    · simp
    · simp only [if_pos rfl] at h ⊢
      exact ih s1 h m (by omega)

/-- With fuel at least `MAX_ITERATIONS - iteration_count`, the loop reaches
a state on which `step` returns `false`: the `while (step())` loop of
`run()` terminates. -/
theorem runLoopFuel_exits : ∀ (fuel : Nat) (s : VMState),
    MAX_ITERATIONS ≤ s.iteration_count + fuel →
    (step (runLoopFuel fuel s)).2 = false := by
  intro fuel
  induction fuel with
  | zero =>
    intro s h
    exact step_iter_reject s (by omega)
  | succ n ih =>
    intro s h
    rw [runLoopFuel_succ]
    rcases hs : step s with ⟨s1, c⟩
    cases c
    · simp only [Bool.false_eq_true, if_false]
      rw [step_false_stable s s1 hs]
    · simp only [if_pos rfl]
      obtain ⟨hiter, -⟩ := step_true_facts s s1 hs
      exact ih s1 (by omega)

/-- The retired-instruction count never exceeds the iteration cap. -/
theorem runLoopFuel_instr_cap : ∀ (fuel : Nat) (s : VMState),
    s.instruction_count ≤ min s.iteration_count MAX_ITERATIONS →
    (runLoopFuel fuel s).instruction_count ≤ MAX_ITERATIONS := by
  intro fuel
  induction fuel with
  | zero =>
    intro s h
    show s.instruction_count ≤ MAX_ITERATIONS
    omega
  | succ n ih =>
    intro s h
    rw [runLoopFuel_succ]
    have hinv := step_instr_inv s h
    rcases hs : step s with ⟨s1, c⟩
    rw [hs] at hinv
    dsimp only at hinv
    cases c
    · simp only [Bool.false_eq_true, if_false]
      omega
    · simp only [if_pos rfl]
      exact ih s1 hinv

/-- The retired-instruction count never exceeds `max_instructions + 1` (the
limit check runs after the instruction has already retired). -/
theorem runLoopFuel_instr_max : ∀ (fuel : Nat) (s : VMState),
    s.instruction_count ≤ s.max_instructions →
    (runLoopFuel fuel s).instruction_count ≤ s.max_instructions + 1 := by
  intro fuel
  induction fuel with
  | zero =>
    intro s h
    show s.instruction_count ≤ s.max_instructions + 1
    omega
  | succ n ih =>
    intro s h
    rw [runLoopFuel_succ]
    have hbounds := step_counter_bounds s
    rcases hs : step s with ⟨s1, c⟩
    rw [hs] at hbounds
    dsimp only at hbounds
    cases c
    · simp only [Bool.false_eq_true, if_false]
      omega
    · simp only [if_pos rfl, if_true]
      obtain ⟨-, -, hle, hm, -, -⟩ := step_true_facts s s1 hs
      have := ih s1 (by omega)
      omega

/-! ## Claim theorems -/

/-- C3 (code bug): compiling `if 1 then` / `halt` / `endif` produces
`[PUSH 1, JUMP_IF 3, HALT]` — the patched `JUMP_IF` target 3 equals the
program length instead of being strictly below it, and the program is
consequently rejected by the project's own bytecode verifier. -/
theorem c3_endif_halt_eval :
    (compile c3src).bytecode =
      [⟨5, 1, 0⟩, ⟨12, 3, 0⟩, ⟨255, 0, 0⟩] ∧
    (compile c3src).bytecode.length = 3 ∧
    verifyBytecode (compile c3src).bytecode
      ((compile c3src).string_table.map sanitizeString) = false := by
  refine ⟨by decide, by decide, by decide⟩

/-- C5 (amended): every `run()` call started with zeroed counters
terminates — its `while (step())` loop reaches a state on which `step`
returns `false` — and retires at most
`min MAX_ITERATIONS (max_instructions + 1)` opcodes: the iteration cap is
checked before an instruction executes, but the instruction-count limit is
checked only after, so up to `max_instructions + 1` opcodes retire. -/
theorem c5_run_termination_and_bounds (s : VMState)
    (h1 : s.instruction_count = 0) (h2 : s.iteration_count = 0) :
    (step (runBody s)).2 = false ∧
    (runVM s).instruction_count ≤ min MAX_ITERATIONS (s.max_instructions + 1) := by
  constructor
  · unfold runBody
    refine runLoopFuel_exits _ _ ?_
    simp only [emitLine]
    omega
  · have hcap := runLoopFuel_instr_cap (MAX_ITERATIONS + 1 - s.iteration_count)
      (emitLine s (cs "Starting Xeno VM...")) (by simp only [emitLine]; omega)
    have hmax := runLoopFuel_instr_max (MAX_ITERATIONS + 1 - s.iteration_count)
      (emitLine s (cs "Starting Xeno VM...")) (by simp only [emitLine]; omega)
    show (runBody s).instruction_count ≤ _
    unfold runBody
    simp only [emitLine] at hcap hmax ⊢
    omega

/-- C5 witness: the amended bound instantiated on a freshly loaded
single-`HALT` program. -/
theorem c5_witness :
    (step (runBody c5wit)).2 = false ∧
    (runVM c5wit).instruction_count ≤ min MAX_ITERATIONS (c5wit.max_instructions + 1) :=
  c5_run_termination_and_bounds c5wit rfl rfl

/-- C5 counterexample: with `max_instructions = 1`, a run over three `NOP`s
retires 2 opcodes — more than the claimed bound
`min max_instructions 100000 = 1` — because the instruction-limit check
happens only after an instruction has executed. -/
theorem c5_counterexample :
    c5cex.max_instructions = 1 ∧ (runVM c5cex).instruction_count = 2 ∧
    ¬((runVM c5cex).instruction_count ≤ min c5cex.max_instructions MAX_ITERATIONS) := by
  have hfix : step (runLoopFuel 4 (emitLine c5cex (cs "Starting Xeno VM..."))) =
      (runLoopFuel 4 (emitLine c5cex (cs "Starting Xeno VM...")), false) := by decide
  have h1 : runBody c5cex = runLoopFuel 4 (emitLine c5cex (cs "Starting Xeno VM...")) := by
    unfold runBody
    exact runLoopFuel_fix 4 _ hfix _ (by decide)
  have h2 : (runVM c5cex).instruction_count = 2 := by
    unfold runVM
    rw [h1]
    decide
  exact ⟨rfl, h2, by rw [h2]; decide⟩

/-- C9: `set x 2+3*4` / `print $x` compiles with `*` bound tighter than `+`
(postfix `2 3 4 * +`), and the run prints exactly the line `14` between the
loader and run banners. -/
theorem c9_precedence_prints_14 :
    c9prog.bytecode =
      [⟨5, 2, 0⟩, ⟨5, 3, 0⟩, ⟨5, 4, 0⟩, ⟨9, 0, 0⟩, ⟨7, 0, 0⟩, ⟨14, 0, 0⟩, ⟨15, 0, 0⟩,
       ⟨13, 0, 0⟩, ⟨255, 0, 0⟩] ∧
    (runVM (loadProgram initVM c9prog.bytecode c9prog.string_table)).output =
      [cs "Program loaded and verified successfully", cs "Starting Xeno VM...", cs "14",
       cs "Xeno VM finished"] := by
  constructor
  · decide
  · have hfix : step (runLoopFuel 12 (emitLine (loadProgram initVM c9prog.bytecode
        c9prog.string_table) (cs "Starting Xeno VM..."))) =
        (runLoopFuel 12 (emitLine (loadProgram initVM c9prog.bytecode c9prog.string_table)
          (cs "Starting Xeno VM...")), false) := by decide
    have h1 : runBody (loadProgram initVM c9prog.bytecode c9prog.string_table) =
        runLoopFuel 12 (emitLine (loadProgram initVM c9prog.bytecode c9prog.string_table)
          (cs "Starting Xeno VM...")) := by
      unfold runBody
      exact runLoopFuel_fix 12 _ hfix _ (by decide)
    unfold runVM
    rw [h1]
    decide

/-- Characterization of one `step` when the VM is running, the fetch
succeeds, the iteration cap is not hit, and the opcode is dispatched. -/
theorem step_exec (s : VMState) (instr : XenoInstruction)
    (hrun : s.running = true)
    (hpc : s.program.get? s.program_counter = some instr)
    (hiter : s.iteration_count < MAX_ITERATIONS)
    (hh : hasHandler instr.opcode = true) :
    step s =
      (let s3 := execInstr instr
         { s with iteration_count := s.iteration_count + 1,
                  program_counter := s.program_counter + 1 }
       let s4 : VMState := { s3 with instruction_count := s3.instruction_count + 1 }
       if s4.max_instructions < s4.instruction_count then
         ({ emitLine s4 (cs "ERROR: Instruction limit exceeded - possible infinite loop") with
             running := false }, false)
       else (s4, s4.running)) := by
  have hlen : s.program_counter < s.program.length := by
    by_contra hc
    rw [not_lt] at hc
    rw [List.get?_eq_none.mpr hc] at hpc
    cases hpc
  have hg : ¬(s.running = false ∨ s.program.length ≤ s.program_counter) :=
    not_or.mpr ⟨by simp [hrun], by omega⟩
  unfold step
  rw [if_neg hg]
  dsimp only
  rw [if_neg ((by omega : ¬(MAX_ITERATIONS < s.iteration_count + 1)) :
    ¬(MAX_ITERATIONS < ({ s with iteration_count := s.iteration_count + 1 } :
      VMState).iteration_count))]
  have hpc1 : (({ s with iteration_count := s.iteration_count + 1 } :
      VMState).program.get? ({ s with iteration_count := s.iteration_count + 1 } :
      VMState).program_counter) = some instr := hpc
  rw [hpc1]
  dsimp only
  rw [if_pos hh]

/-- C1 counterexample: executing `JUMP_IF 0` (target in range) with integer
0 — truthy under the spec's table — on top of the stack pops the value but
does not branch: the program counter moves to 1, not to the target 0. -/
theorem c1_counterexample :
    c1cex.stack = [XenoValue.makeInt 0] ∧ (0 : Nat) < c1cex.program.length ∧
    (step c1cex).1.stack = [] ∧ (step c1cex).1.program_counter = 1 ∧
    (step c1cex).1.program_counter ≠ 0 := by
  refine ⟨by decide, by decide, by decide, by decide, by decide⟩

/-- C1 (amended): an executed `JUMP_IF` pops one value and branches to the
target exactly when the popped value is truthy in the code's sense — a
non-zero integer, a non-zero float, or a non-empty string — and the target
is inside the program; otherwise the program counter just advances. -/
theorem c1_jump_if_branch (s : VMState) (t a2v : Nat) (v : XenoValue)
    (rest : List XenoValue)
    (hrun : s.running = true)
    (hpc : s.program.get? s.program_counter = some ⟨12, t, a2v⟩)
    (hstk : s.stack = v :: rest)
    (hiter : s.iteration_count < MAX_ITERATIONS)
    (hinstr : s.instruction_count < s.max_instructions) :
    (step s).2 = true ∧ (step s).1.running = true ∧ (step s).1.stack = rest ∧
    (step s).1.program_counter =
      (if condTruthy s.string_table v = true ∧ t < s.program.length then t
       else s.program_counter + 1) := by
  rw [step_exec s ⟨12, t, a2v⟩ hrun hpc hiter rfl]
  have hexec : execInstr ⟨12, t, a2v⟩
      { s with iteration_count := s.iteration_count + 1,
               program_counter := s.program_counter + 1 } =
      handleJUMP_IF ⟨12, t, a2v⟩
        { s with iteration_count := s.iteration_count + 1,
                 program_counter := s.program_counter + 1 } := rfl
  rw [hexec]
  unfold handleJUMP_IF popVal
  dsimp only
  rw [hstk]
  dsimp only
  by_cases hcond : condTruthy s.string_table v = true ∧ t < s.program.length
  · simp only [if_pos hcond]
    rw [if_neg (by omega : ¬(s.max_instructions < s.instruction_count + 1))]
    exact ⟨hrun, hrun, rfl, rfl⟩
  · simp only [if_neg hcond]
    rw [if_neg (by omega : ¬(s.max_instructions < s.instruction_count + 1))]
    exact ⟨hrun, hrun, rfl, rfl⟩

/-- C1 witness: the amended branch characterization instantiated on a
concrete `JUMP_IF 0` over the value 5. -/
theorem c1_witness :
    (step c1wit).2 = true ∧ (step c1wit).1.running = true ∧ (step c1wit).1.stack = [] ∧
    (step c1wit).1.program_counter =
      (if condTruthy c1wit.string_table (XenoValue.makeInt 5) = true ∧
          (0 : Nat) < c1wit.program.length then 0
       else c1wit.program_counter + 1) :=
  c1_jump_if_branch c1wit 0 0 (XenoValue.makeInt 5) [] rfl rfl rfl (by decide) (by decide)

/-- C2 counterexample: an executed `JUMP_IF` whose target 9 lies outside
the two-instruction program leaves the VM running (it silently skips the
branch and falls through), although the popped integer 1 is non-zero. -/
theorem c2_counterexample :
    c2cex.program.length ≤ 9 ∧ c2cex.stack = [XenoValue.makeInt 1] ∧
    (step c2cex).1.running = true ∧ (step c2cex).2 = true ∧
    (step c2cex).1.program_counter = 1 := by
  refine ⟨by decide, by decide, by decide, by decide, by decide⟩

/-- C2 (amended): an executed `JUMP` whose target lies at or beyond the
program length terminates execution without branching, but an executed
`JUMP_IF` with such a target does not terminate: it never branches and
execution falls through to the next instruction. -/
theorem c2_oob_jump_semantics (s : VMState) (t a2v : Nat) (v : XenoValue)
    (rest : List XenoValue)
    (hrun : s.running = true)
    (hlen : s.program.length ≤ t)
    (hiter : s.iteration_count < MAX_ITERATIONS)
    (hinstr : s.instruction_count < s.max_instructions) :
    (s.program.get? s.program_counter = some ⟨11, t, a2v⟩ →
      (step s).2 = false ∧ (step s).1.running = false ∧
      (step s).1.program_counter = s.program_counter + 1) ∧
    (s.program.get? s.program_counter = some ⟨12, t, a2v⟩ → s.stack = v :: rest →
      (step s).2 = true ∧ (step s).1.running = true ∧
      (step s).1.program_counter = s.program_counter + 1) := by
  constructor
  · intro hpc
    rw [step_exec s ⟨11, t, a2v⟩ hrun hpc hiter rfl]
    have hexec : execInstr ⟨11, t, a2v⟩
        { s with iteration_count := s.iteration_count + 1,
                 program_counter := s.program_counter + 1 } =
        handleJUMP ⟨11, t, a2v⟩
          { s with iteration_count := s.iteration_count + 1,
                   program_counter := s.program_counter + 1 } := rfl
    rw [hexec]
    unfold handleJUMP
    dsimp only
    rw [if_neg (by omega : ¬(t < s.program.length))]
    dsimp only [emitLine]
    split
    · exact ⟨rfl, rfl, rfl⟩
    · exact ⟨rfl, rfl, rfl⟩
  · intro hpc hstk
    rw [step_exec s ⟨12, t, a2v⟩ hrun hpc hiter rfl]
    have hexec : execInstr ⟨12, t, a2v⟩
        { s with iteration_count := s.iteration_count + 1,
                 program_counter := s.program_counter + 1 } =
        handleJUMP_IF ⟨12, t, a2v⟩
          { s with iteration_count := s.iteration_count + 1,
                   program_counter := s.program_counter + 1 } := rfl
    rw [hexec]
    unfold handleJUMP_IF popVal
    dsimp only
    rw [hstk]
    dsimp only
    have hcond : ¬(condTruthy s.string_table v = true ∧ t < s.program.length) :=
      fun hc => absurd hc.2 (by omega)
    simp only [if_neg hcond]
    rw [if_neg (by omega : ¬(s.max_instructions < s.instruction_count + 1))]
    exact ⟨hrun, hrun, rfl⟩

/-- C2 witness: the `JUMP_IF` fall-through of the amended statement on a
concrete out-of-bounds target. -/
theorem c2_witness :
    (step c2wit).2 = true ∧ (step c2wit).1.running = true ∧
    (step c2wit).1.program_counter = c2wit.program_counter + 1 :=
  (c2_oob_jump_semantics c2wit 9 0 (XenoValue.makeInt 1) [] rfl (by decide) (by decide)
    (by decide)).2 rfl rfl

/-- Integer division by zero is a reported soft error yielding integer 0. -/
theorem performDivision_zero (st : VMState) (x : Int) :
    performDivision st (.makeInt x) (.makeInt 0) =
      (emitLine st (cs "ERROR: Division by zero"), .makeInt 0) := by
  simp [performDivision, bothNumeric, typeTag]

/-- `INT_MIN / -1` is a reported soft error yielding integer 0. -/
theorem performDivision_overflow (st : VMState) :
    performDivision st (.makeInt intMin) (.makeInt (-1)) =
      (emitLine st (cs "ERROR: Integer overflow in division"), .makeInt 0) := by
  simp [performDivision, bothNumeric, typeTag, intMin]

/-- C7: an executed `DIV` on two integers with divisor 0, or on
`INT_MIN / -1`, prints the matching error line, pushes integer 0, and
leaves the VM running so that the next instruction retires. -/
theorem c7_div_soft_errors (s : VMState) (a1 a2v : Nat) (x y : Int)
    (rest : List XenoValue)
    (hrun : s.running = true)
    (hpc : s.program.get? s.program_counter = some ⟨10, a1, a2v⟩)
    (hstk : s.stack = XenoValue.makeInt y :: XenoValue.makeInt x :: rest)
    (hcase : y = 0 ∨ (x = intMin ∧ y = -1))
    (hdepth : s.stack.length ≤ 256)
    (hiter : s.iteration_count < MAX_ITERATIONS)
    (hinstr : s.instruction_count < s.max_instructions) :
    (step s).2 = true ∧ (step s).1.running = true ∧
    (step s).1.stack = XenoValue.makeInt 0 :: rest ∧
    (step s).1.output = s.output ++
      [if y = 0 then cs "ERROR: Division by zero"
       else cs "ERROR: Integer overflow in division"] := by
  have hrest : rest.length < 256 := by
    rw [hstk] at hdepth
    simp only [List.length_cons] at hdepth
    omega
  rw [step_exec s ⟨10, a1, a2v⟩ hrun hpc hiter rfl]
  have hexec : execInstr ⟨10, a1, a2v⟩
      { s with iteration_count := s.iteration_count + 1,
               program_counter := s.program_counter + 1 } =
      handleDIV
        { s with iteration_count := s.iteration_count + 1,
                 program_counter := s.program_counter + 1 } := rfl
  rw [hexec]
  unfold handleDIV popTwo
  dsimp only
  rw [hstk]
  dsimp only
  rcases hcase with hy | ⟨hx, hy⟩
  · subst hy
    rw [performDivision_zero]
    dsimp only [emitLine]
    unfold pushVal
    rw [if_neg hrest.not_le]
    rw [if_neg (by omega : ¬(s.max_instructions < s.instruction_count + 1))]
    refine ⟨hrun, hrun, rfl, ?_⟩
    simp
  · subst hx
    subst hy
    rw [performDivision_overflow]
    dsimp only [emitLine]
    unfold pushVal
    rw [if_neg hrest.not_le]
    rw [if_neg (by omega : ¬(s.max_instructions < s.instruction_count + 1))]
    refine ⟨hrun, hrun, rfl, ?_⟩
    simp [intMin]

/-- C7 witness: the soft-error characterization on the one-instruction
program `DIV` with stack `10, 0`. -/
theorem c7_witness :
    (step c7wit).2 = true ∧ (step c7wit).1.running = true ∧
    (step c7wit).1.stack = [XenoValue.makeInt 0] ∧
    (step c7wit).1.output = c7wit.output ++
      [if (0 : Int) = 0 then cs "ERROR: Division by zero"
       else cs "ERROR: Integer overflow in division"] :=
  c7_div_soft_errors c7wit 0 0 10 0 [] rfl rfl rfl (Or.inl rfl) (by decide) (by decide)
    (by decide)

/-- Membership in the spec's opcode table is exactly the verifier's range
test. -/
theorem mem_definedOpcodes (op : Nat) : op ∈ definedOpcodes ↔ (op ≤ 30 ∨ op = 255) := by
  simp only [definedOpcodes, List.mem_append, List.mem_range, List.mem_singleton]
  omega

/-- C4: `verifyBytecode` (the security layer's) accepts exactly the opcodes
of the spec's section-6 table — every accepted program uses only defined
opcodes with in-range string arguments, any program with an out-of-table
opcode is rejected, and every opcode of the table appears in some accepted
program. -/
theorem c4_verify_opcode_set (bc : List XenoInstruction) (ss : List Str) :
    (verifyBytecode bc ss = true →
      ∀ i ∈ bc, i.opcode ∈ definedOpcodes ∧
        (i.opcode ∈ stringArgOps → i.arg1 < ss.length)) ∧
    ((∃ i ∈ bc, i.opcode ∉ definedOpcodes) → verifyBytecode bc ss = false) ∧
    (∀ op ∈ definedOpcodes,
      verifyBytecode [⟨op, if op = 2 ∨ op = 3 then 2 else 0, 0⟩] [cs "v"] = true) := by
  have hmain : verifyBytecode bc ss = true →
      ∀ i ∈ bc, i.opcode ∈ definedOpcodes ∧
        (i.opcode ∈ stringArgOps → i.arg1 < ss.length) := by
    intro hv i hi
    unfold verifyBytecode at hv
    simp only [Bool.and_eq_true, List.all_eq_true] at hv
    have hok := hv.1.2 i hi
    unfold instrOk at hok
    simp only [Bool.and_eq_true, decide_eq_true_eq, Bool.or_eq_true] at hok
    refine ⟨(mem_definedOpcodes i.opcode).mpr hok.1.1.1.1, ?_⟩
    intro hmem
    have hstr := hok.1.1.2
    rw [if_pos hmem] at hstr
    simpa using hstr
  refine ⟨hmain, ?_, by decide⟩
  rintro ⟨i, hi, hbad⟩
  cases hveq : verifyBytecode bc ss with
  | false => rfl
  | true => exact absurd ((hmain hveq i hi).1) hbad

/-- C4 witness: the characterization applied to the accepted one-`INPUT`
program. -/
theorem c4_witness :
    (⟨27, 0, 0⟩ : XenoInstruction).opcode ∈ definedOpcodes ∧
    ((⟨27, 0, 0⟩ : XenoInstruction).opcode ∈ stringArgOps →
      (⟨27, 0, 0⟩ : XenoInstruction).arg1 < ([cs "v"] : List Str).length) :=
  (c4_verify_opcode_set [⟨27, 0, 0⟩] [cs "v"]).1 (by decide) ⟨27, 0, 0⟩ (by decide)

/-- C10: when verification fails inside `loadProgram`, the VM has already
been reset (pc, stack, variables, counters), the previously installed
program and string table are untouched, `running` is false, and `step` is a
no-op returning `false`. -/
theorem c10_failed_load_state (s : VMState) (bc : List XenoInstruction) (strs : List Str)
    (hv : verifyBytecode bc (strs.map sanitizeString) = false) :
    (loadProgram s bc strs).program = s.program ∧
    (loadProgram s bc strs).string_table = s.string_table ∧
    (loadProgram s bc strs).program_counter = 0 ∧
    (loadProgram s bc strs).stack = [] ∧
    (loadProgram s bc strs).vars = [] ∧
    (loadProgram s bc strs).instruction_count = 0 ∧
    (loadProgram s bc strs).iteration_count = 0 ∧
    (loadProgram s bc strs).running = false ∧
    step (loadProgram s bc strs) = (loadProgram s bc strs, false) := by
  unfold loadProgram
  dsimp only
  rw [if_pos hv]
  refine ⟨rfl, rfl, rfl, rfl, rfl, rfl, rfl, rfl, ?_⟩
  unfold step
  rw [if_pos (Or.inl rfl)]

/-- C10 witness: loading a bytecode with an out-of-range jump over a VM
that already holds a program. -/
theorem c10_witness :
    (loadProgram c10prior c10bad []).program = c10prior.program ∧
    (loadProgram c10prior c10bad []).string_table = c10prior.string_table ∧
    (loadProgram c10prior c10bad []).program_counter = 0 ∧
    (loadProgram c10prior c10bad []).stack = [] ∧
    (loadProgram c10prior c10bad []).vars = [] ∧
    (loadProgram c10prior c10bad []).instruction_count = 0 ∧
    (loadProgram c10prior c10bad []).iteration_count = 0 ∧
    (loadProgram c10prior c10bad []).running = false ∧
    step (loadProgram c10prior c10bad []) = (loadProgram c10prior c10bad [], false) :=
  c10_failed_load_state c10prior c10bad [] (by decide)

/-- Each sanitized character expands to one or two characters. -/
theorem sanChar_length (c : Char) :
    1 ≤ (sanChar c).length ∧ (sanChar c).length ≤ 2 := by
  unfold sanChar
  split_ifs <;> simp

/-- The source's per-character mapping coincides with the spec's table. -/
theorem sanChar_eq_specCharMap : sanChar = specCharMap := rfl

/-- Length bound of the sanitize loop: a sane accumulator never grows past
256 + 1 (escape overshoot) + 3 (the appended dots). -/
theorem sanLoop_length : ∀ (inp acc : List Char),
    acc.length ≤ 255 → (sanLoop inp acc).length ≤ 260 := by
  intro inp
  induction inp with
  | nil =>
    intro acc h
    unfold sanLoop
    omega
  | cons c rest ih =>
    intro acc h
    unfold sanLoop
    dsimp only
    have hc := sanChar_length c
    have hdots : (cs "...").length = 3 := rfl
    split
    · rename_i hge
      simp only [List.length_append] at hge ⊢
      omega
    · rename_i hlt
      simp only [List.length_append, not_le] at hlt
      exact ih (acc ++ sanChar c) (by simp only [List.length_append]; omega)

/-- As long as the translated result stays below the limit, the sanitize
loop is exactly the concatenation of the per-character translations. -/
theorem sanLoop_exact : ∀ (inp acc : List Char),
    acc.length + (inp.map sanChar).flatten.length < 256 →
    sanLoop inp acc = acc ++ (inp.map sanChar).flatten := by
  intro inp
  induction inp with
  | nil =>
    intro acc _
    unfold sanLoop
    simp
  | cons c rest ih =>
    intro acc h
    unfold sanLoop
    dsimp only
    rw [List.map_cons, List.flatten_cons] at h
    simp only [List.length_append] at h
    split
    · rename_i hge
      simp only [List.length_append] at hge
      omega
    · rw [ih (acc ++ sanChar c) (by simp only [List.length_append]; omega)]
      simp

/-- C8 (amended): `sanitizeString` translates characters exactly as the
spec's table prescribes whenever no truncation occurs, and its result never
exceeds 260 characters — `max_string_length + 1` content characters (the
escape pair may overshoot the 256 limit by one) plus the three appended
dots — rather than the claimed `max_string_length + 3`. -/
theorem c8_sanitize_refinement (input : Str) :
    (sanitizeString input).length ≤ 260 ∧
    ((input.map specCharMap).flatten.length < 256 →
      sanitizeString input = (input.map specCharMap).flatten) := by
  constructor
  · exact sanLoop_length input [] (by simp)
  · intro h
    rw [← sanChar_eq_specCharMap] at h ⊢
    simpa using sanLoop_exact input [] (by simpa using h)

/-- C8 witness: the exact-translation case on a short input. -/
theorem c8_witness :
    sanitizeString (cs "hi") = ((cs "hi").map specCharMap).flatten :=
  (c8_sanitize_refinement (cs "hi")).2 (by decide)

set_option maxRecDepth 4000 in
/-- C8 counterexample: 255 letters followed by a double quote sanitize to
260 characters — the escape of the quote lands the intermediate result at
257 = max_string_length + 1 before the dots are appended, exceeding the
claimed `max_string_length + 3` bound. -/
theorem c8_counterexample :
    (sanitizeString c8input).length = 260 ∧
    256 + 3 < (sanitizeString c8input).length := by
  refine ⟨by decide, by decide⟩


/-- The increment instruction `compileEndfor` chooses for a loop variable:
`PUSH_FLOAT 1.0` when the compiler's `variable_map` records a float for it,
`PUSH 1` otherwise. -/
def incInstr (st : CompState) (li : LoopInfo) : XenoInstruction :=
  match mapFind st.variable_map li.var_name with
  | some v => if typeTag v = 1 then ⟨25, encodeFloat 1, 0⟩ else ⟨5, 1, 0⟩
  | none => ⟨5, 1, 0⟩

/-- A valid variable name has at most 32 characters. -/
theorem isValidVariable_le (s : Str) (h : isValidVariable s = true) : s.length ≤ 32 := by
  unfold isValidVariable at h
  split at h
  · exact absurd h (by simp)
  · rename_i hc
    rw [not_or] at hc
    exact le_of_not_lt hc.2

/-- `indexOf` from the end finds a freshly appended string at the old
length. -/
theorem lastIdxOf_append_self (tbl : List Str) (s : Str) :
    lastIdxOf (tbl ++ [s]) s = some tbl.length := by
  induction tbl with
  | nil => simp [lastIdxOf]
  | cons x xs ih =>
    show (match lastIdxOf (xs ++ [s]) s with
          | some i => some (i + 1)
          | none => if x = s then some 0 else none) = some (xs.length + 1)
    rw [ih]

/-- Adding a string to the table twice is the same as adding it once. -/
theorem addStringT_idem (tbl : List Str) (s : Str) (hlen : tbl.length < 65535) :
    addStringT (addStringT tbl s).1 s = addStringT tbl s := by
  by_cases hv : validateStringC s = false
  · simp only [addStringT, if_pos hv]
  · cases hL : lastIdxOf tbl s with
    | some i =>
      have hfirst : addStringT tbl s = (tbl, i) := by
        simp only [addStringT, if_neg hv, hL]
      rw [hfirst]
      exact hfirst
    | none =>
      have hfirst : addStringT tbl s = (tbl ++ [s], tbl.length) := by
        simp only [addStringT, if_neg hv, hL]
        rw [if_neg (by omega)]
      rw [hfirst]
      show addStringT (tbl ++ [s]) s = (tbl ++ [s], tbl.length)
      simp only [addStringT, if_neg hv, lastIdxOf_append_self]

/-- `getVariableIndex` on a valid name is the string-table action. -/
theorem getVariableIndex_eq (st : CompState) (name : Str) (tbl : List Str) (k : Nat)
    (hvv : validateVariableName name = true)
    (hT : addStringT st.string_table name = (tbl, k)) :
    getVariableIndex st name = ({ st with string_table := tbl }, k) := by
  unfold getVariableIndex addStringC
  rw [if_pos hvv, hT]

/-- `emitInstruction` below the cap appends. -/
theorem emitInstruction_lt (st : CompState) (i : XenoInstruction)
    (h : st.bytecode.length < 65535) :
    emitInstruction st i = { st with bytecode := st.bytecode ++ [i] } := by
  unfold emitInstruction
  rw [if_neg (by omega)]

/-- `patchArg1` preserves length. -/
theorem patchArg1_length (l : List XenoInstruction) (i v : Nat) :
    (patchArg1 l i v).length = l.length := by
  unfold patchArg1
  cases l.get? i <;> simp

/-- `patchArg1` leaves other positions alone. -/
theorem patchArg1_get_ne (l : List XenoInstruction) (i v j : Nat) (h : i ≠ j) :
    (patchArg1 l i v).get? j = l.get? j := by
  unfold patchArg1
  cases l.get? i with
  | none => rfl
  | some ins =>
    simp only [List.get?_eq_getElem?, List.getElem?_set_ne h]

/-- The shared tail of `compileEndfor` after the increment instruction has
been selected. -/
theorem endfor_tail (st : CompState) (li : LoopInfo) (rest : List LoopInfo)
    (T1 : List Str) (i1 : Nat) (inc : XenoInstruction)
    (hvv : validateVariableName li.var_name = true)
    (hbc : st.bytecode.length + 5 ≤ 65535)
    (hT2 : addStringT T1 li.var_name = (T1, i1))
    (hcond : li.condition_address < st.bytecode.length) :
    (let E1 := emitInstruction
      { st with loop_stack := rest, string_table := T1,
                bytecode := st.bytecode ++ [⟨15, i1, 0⟩] } inc
     let E2 := emitInstruction E1 ⟨7, 0, 0⟩
     let P := getVariableIndex E2 li.var_name
     let E3 := emitInstruction P.1 ⟨14, P.2, 0⟩
     let E4 := emitInstruction E3 ⟨11, li.start_address, 0⟩
     if li.condition_address < E4.bytecode.length then
       { E4 with bytecode := patchArg1 E4.bytecode li.condition_address E4.bytecode.length }
     else E4) =
    { bytecode := patchArg1
        (st.bytecode ++ [⟨15, i1, 0⟩, inc, ⟨7, 0, 0⟩, ⟨14, i1, 0⟩, ⟨11, li.start_address, 0⟩])
        li.condition_address (st.bytecode.length + 5),
      string_table := T1,
      variable_map := st.variable_map,
      if_stack := st.if_stack,
      loop_stack := rest } := by
  dsimp only
  have he2 : emitInstruction
      { st with loop_stack := rest, string_table := T1,
                bytecode := st.bytecode ++ [⟨15, i1, 0⟩] } inc =
      { st with loop_stack := rest, string_table := T1,
                bytecode := st.bytecode ++ [⟨15, i1, 0⟩] ++ [inc] } :=
    emitInstruction_lt _ _ (by dsimp only; simp only [List.length_append, List.length_cons, List.length_nil]; omega)
  rw [he2]
  have he3 : emitInstruction
      { st with loop_stack := rest, string_table := T1,
                bytecode := st.bytecode ++ [⟨15, i1, 0⟩] ++ [inc] } (⟨7, 0, 0⟩ : XenoInstruction) =
      { st with loop_stack := rest, string_table := T1,
                bytecode := st.bytecode ++ [⟨15, i1, 0⟩] ++ [inc] ++ [⟨7, 0, 0⟩] } :=
    emitInstruction_lt _ _ (by dsimp only; simp only [List.length_append, List.length_cons, List.length_nil]; omega)
  rw [he3]
  have hg2 : getVariableIndex
      { st with loop_stack := rest, string_table := T1,
                bytecode := st.bytecode ++ [⟨15, i1, 0⟩] ++ [inc] ++ [⟨7, 0, 0⟩] } li.var_name =
      ({ st with loop_stack := rest, string_table := T1,
                   bytecode := st.bytecode ++ [⟨15, i1, 0⟩] ++ [inc] ++ [⟨7, 0, 0⟩] }, i1) :=
    getVariableIndex_eq _ _ _ _ hvv hT2
  rw [hg2]
  dsimp only
  have he4 : emitInstruction
      { st with loop_stack := rest, string_table := T1,
                bytecode := st.bytecode ++ [⟨15, i1, 0⟩] ++ [inc] ++ [⟨7, 0, 0⟩] }
      (⟨14, i1, 0⟩ : XenoInstruction) =
      { st with loop_stack := rest, string_table := T1,
                bytecode := st.bytecode ++ [⟨15, i1, 0⟩] ++ [inc] ++ [⟨7, 0, 0⟩] ++ [⟨14, i1, 0⟩] } :=
    emitInstruction_lt _ _ (by dsimp only; simp only [List.length_append, List.length_cons, List.length_nil]; omega)
  rw [he4]
  have he5 : emitInstruction
      { st with loop_stack := rest, string_table := T1,
                bytecode := st.bytecode ++ [⟨15, i1, 0⟩] ++ [inc] ++ [⟨7, 0, 0⟩] ++ [⟨14, i1, 0⟩] }
      (⟨11, li.start_address, 0⟩ : XenoInstruction) =
      { st with loop_stack := rest, string_table := T1,
                bytecode := st.bytecode ++ [⟨15, i1, 0⟩] ++ [inc] ++ [⟨7, 0, 0⟩] ++ [⟨14, i1, 0⟩]
          ++ [⟨11, li.start_address, 0⟩] } :=
    emitInstruction_lt _ _ (by dsimp only; simp only [List.length_append, List.length_cons, List.length_nil]; omega)
  rw [he5]
  dsimp only
  have hassoc : st.bytecode ++ [(⟨15, i1, 0⟩ : XenoInstruction)] ++ [inc] ++ [⟨7, 0, 0⟩]
      ++ [⟨14, i1, 0⟩] ++ [⟨11, li.start_address, 0⟩] =
      st.bytecode ++ [⟨15, i1, 0⟩, inc, ⟨7, 0, 0⟩, ⟨14, i1, 0⟩, ⟨11, li.start_address, 0⟩] := by
    simp
  rw [hassoc]
  have hlen : (st.bytecode ++ [(⟨15, i1, 0⟩ : XenoInstruction), inc, ⟨7, 0, 0⟩, ⟨14, i1, 0⟩,
      ⟨11, li.start_address, 0⟩]).length = st.bytecode.length + 5 := by
    simp
  rw [hlen]
  rw [if_pos (by omega : li.condition_address < st.bytecode.length + 5)]

/-- Characterization of `compileEndfor` on a well-formed state. -/
theorem compileEndfor_spec (st : CompState) (li : LoopInfo) (rest : List LoopInfo)
    (hstack : st.loop_stack = li :: rest)
    (hvar : isValidVariable li.var_name = true)
    (hbc : st.bytecode.length + 5 ≤ 65535)
    (htbl : st.string_table.length < 65535)
    (hcond : li.condition_address < st.bytecode.length) :
    compileEndfor st =
      { bytecode := patchArg1 (st.bytecode ++
          [⟨15, (addStringT st.string_table li.var_name).2, 0⟩,
           incInstr st li,
           ⟨7, 0, 0⟩,
           ⟨14, (addStringT st.string_table li.var_name).2, 0⟩,
           ⟨11, li.start_address, 0⟩]) li.condition_address (st.bytecode.length + 5),
        string_table := (addStringT st.string_table li.var_name).1,
        variable_map := st.variable_map,
        if_stack := st.if_stack,
        loop_stack := rest } := by
  have h32 := isValidVariable_le li.var_name hvar
  have hvv : validateVariableName li.var_name = true := by
    unfold validateVariableName
    rw [if_neg (by omega)]
    exact hvar
  rcases hT : addStringT st.string_table li.var_name with ⟨T1, i1⟩
  have hT2 : addStringT T1 li.var_name = (T1, i1) := by
    have hidem := addStringT_idem st.string_table li.var_name htbl
    rw [hT] at hidem
    exact hidem
  unfold compileEndfor
  rw [hstack]
  dsimp only
  have hg1 : getVariableIndex { st with loop_stack := rest } li.var_name =
      ({ st with loop_stack := rest, string_table := T1 }, i1) :=
    getVariableIndex_eq _ _ _ _ hvv hT
  rw [hg1]
  dsimp only
  have he1 : emitInstruction { st with loop_stack := rest, string_table := T1 }
      (⟨15, i1, 0⟩ : XenoInstruction) =
      { st with loop_stack := rest, string_table := T1,
                bytecode := st.bytecode ++ [⟨15, i1, 0⟩] } :=
    emitInstruction_lt _ _ (by dsimp only; omega)
  rw [he1]
  dsimp only
  cases hm : mapFind st.variable_map li.var_name with
  | none =>
    dsimp only
    have hinc : incInstr st li = ⟨5, 1, 0⟩ := by
      unfold incInstr
      rw [hm]
    rw [hinc]
    exact endfor_tail st li rest T1 i1 ⟨5, 1, 0⟩ hvv hbc hT2 hcond
  | some v =>
    dsimp only
    by_cases htv : typeTag v = 1
    · have hinc : incInstr st li = ⟨25, encodeFloat 1, 0⟩ := by
        unfold incInstr
        rw [hm]
        dsimp only
        rw [if_pos htv]
      rw [hinc, if_pos htv]
      exact endfor_tail st li rest T1 i1 ⟨25, encodeFloat 1, 0⟩ hvv hbc hT2 hcond
    · have hinc : incInstr st li = ⟨5, 1, 0⟩ := by
        unfold incInstr
        rw [hm]
        dsimp only
        rw [if_neg htv]
      rw [hinc, if_neg htv]
      exact endfor_tail st li rest T1 i1 ⟨5, 1, 0⟩ hvv hbc hT2 hcond

/-- C6 (amended): compiling `endfor` emits five instructions — `LOAD var`,
an increment push, `ADD`, `STORE var`, `JUMP` to the loop start — and the
increment is `PUSH_FLOAT 1.0` exactly when the compiler's `variable_map`
(which only a prior `set` with a literal fills) records a float for the
loop variable; the type of the `for` statement's own start value plays no
role. -/
theorem c6_endfor_increment (st : CompState) (line : Str) (ln : Nat)
    (li : LoopInfo) (rest : List LoopInfo)
    (hclean : cleanLine line = cs "endfor")
    (hstack : st.loop_stack = li :: rest)
    (hvar : isValidVariable li.var_name = true)
    (hbc : st.bytecode.length + 5 ≤ 65535)
    (htbl : st.string_table.length < 65535)
    (hcond : li.condition_address < st.bytecode.length) :
    (compileLine st line ln).bytecode.length = st.bytecode.length + 5 ∧
    (compileLine st line ln).bytecode.get? (st.bytecode.length + 1) = some (incInstr st li) ∧
    (incInstr st li = ⟨25, encodeFloat 1, 0⟩ ↔
      ∃ v, mapFind st.variable_map li.var_name = some v ∧ typeTag v = 1) := by
  have hline : compileLine st line ln = compileEndfor st := by
    unfold compileLine
    rw [hclean]
    rfl
  rw [hline, compileEndfor_spec st li rest hstack hvar hbc htbl hcond]
  dsimp only
  refine ⟨?_, ?_, ?_⟩
  · rw [patchArg1_length]
    simp
  · rw [patchArg1_get_ne _ _ _ _ (by omega)]
    have hsub : st.bytecode.length + 1 - st.bytecode.length = 1 := by omega
    rw [List.get?_append_right (by omega), hsub]
    rfl
  · cases hm : mapFind st.variable_map li.var_name with
    | none => simp [incInstr, hm]
    | some v =>
      by_cases htv : typeTag v = 1
      · simp [incInstr, hm, htv]
      · simp [incInstr, hm, htv]

/-- C6 counterexample: in `for x = 1.5 to 3` + `endfor` the start value is
compiled as a float push, yet — `x` never having entered `variable_map` —
the `endfor` increment at index 7 is the integer `PUSH 1`, contradicting
the spec's rule that the increment type follows the loop start value. -/
theorem c6_counterexample :
    (compile c6src).bytecode.get? 0 = some ⟨25, 1069547520, 0⟩ ∧
    isFloatC (cs "1.5") = true ∧
    (compile c6src).bytecode.get? 7 = some ⟨5, 1, 0⟩ := by
  refine ⟨by decide, by decide, by decide⟩

/-- C6 witness: on a state whose `variable_map` records a float for `x`,
`endfor` emits five instructions and a `PUSH_FLOAT 1.0` increment. -/
theorem c6_witness :
    (compileLine c6wit (cs "endfor") 2).bytecode.length = c6wit.bytecode.length + 5 ∧
    (compileLine c6wit (cs "endfor") 2).bytecode.get? (c6wit.bytecode.length + 1) =
      some (incInstr c6wit ⟨cs "x", 0, 1, 2⟩) ∧
    (incInstr c6wit ⟨cs "x", 0, 1, 2⟩ = ⟨25, encodeFloat 1, 0⟩ ↔
      ∃ v, mapFind c6wit.variable_map (cs "x") = some v ∧ typeTag v = 1) :=
  c6_endfor_increment c6wit (cs "endfor") 2 ⟨cs "x", 0, 1, 2⟩ []
    (by decide) (by decide) (by decide) (by decide) (by decide) (by decide)

end Xeno
